import Mathlib

/-!
Verification development for the `django-chat-sdk` chat orchestration core.

The definitions below are a shallow embedding, translated from the Python
sources under `chat_sdk/`:

* `Json`, `dumps`, `loads` — a model of the Python `json` module as used by the
  SDK (`json.dumps` with its default separators `", "`/`": "` and short escapes;
  `json.loads` as a recursive-descent reader).  Numbers are modelled as
  integers (the SDK's tool arguments and results are built from ints, strings,
  booleans, null, arrays and objects); `ensure_ascii` is modelled as off, so
  characters outside ASCII pass through unescaped — a valid JSON encoding that
  does not affect any round-trip property.
* message converter (`chat_sdk/services/message_converter.py`)
* tool registry (`chat_sdk/services/tool_registry.py`)
* middleware pipeline and the guardrails / cache middleware
  (`chat_sdk/middleware/`)
* provider stream adapters (`chat_sdk/providers/openai_provider.py`,
  `chat_sdk/providers/anthropic_provider.py`)
* the agent loop (`chat_sdk/services/chat_service.py`).
-/

namespace ChatSDK

/-- A JSON value, as produced and consumed by the Python `json` module calls in
the SDK.  Numbers are modelled as integers. -/
inductive Json where
  | null
  | bool (b : Bool)
  | num (n : Int)
  | str (s : String)
  | arr (items : List Json)
  | obj (fields : List (String × Json))
deriving Repr, Inhabited

mutual
def Json.deq : (a b : Json) → Decidable (a = b)
  | .null, .null => isTrue rfl
  | .null, .bool _ | .null, .num _ | .null, .str _ | .null, .arr _
  | .null, .obj _ => isFalse (by intro h; cases h)
  | .bool _, .null | .bool _, .num _ | .bool _, .str _ | .bool _, .arr _
  | .bool _, .obj _ => isFalse (by intro h; cases h)
  | .bool a, .bool b =>
    match decEq a b with
    | isTrue h => isTrue (by rw [h])
    | isFalse h => isFalse (by intro hh; cases hh; exact h rfl)
  | .num a, .num b =>
    match decEq a b with
    | isTrue h => isTrue (by rw [h])
    | isFalse h => isFalse (by intro hh; cases hh; exact h rfl)
  | .num _, .null | .num _, .bool _ | .num _, .str _ | .num _, .arr _
  | .num _, .obj _ => isFalse (by intro h; cases h)
  | .str a, .str b =>
    match decEq a b with
    | isTrue h => isTrue (by rw [h])
    | isFalse h => isFalse (by intro hh; cases hh; exact h rfl)
  | .str _, .null | .str _, .bool _ | .str _, .num _ | .str _, .arr _
  | .str _, .obj _ => isFalse (by intro h; cases h)
  | .arr a, .arr b =>
    match Json.deqArr a b with
    | isTrue h => isTrue (by rw [h])
    | isFalse h => isFalse (by intro hh; cases hh; exact h rfl)
  | .arr _, .null | .arr _, .bool _ | .arr _, .num _ | .arr _, .str _
  | .arr _, .obj _ => isFalse (by intro h; cases h)
  | .obj a, .obj b =>
    match Json.deqObj a b with
    | isTrue h => isTrue (by rw [h])
    | isFalse h => isFalse (by intro hh; cases hh; exact h rfl)
  | .obj _, .null | .obj _, .bool _ | .obj _, .num _ | .obj _, .str _
  | .obj _, .arr _ => isFalse (by intro h; cases h)
def Json.deqArr : (a b : List Json) → Decidable (a = b)
  | [], [] => isTrue rfl
  | [], _ :: _ => isFalse (by intro h; cases h)
  | _ :: _, [] => isFalse (by intro h; cases h)
  | x :: xs, y :: ys =>
    match Json.deq x y, Json.deqArr xs ys with
    | isTrue h1, isTrue h2 => isTrue (by rw [h1, h2])
    | isFalse h1, _ => isFalse (by intro hh; cases hh; exact h1 rfl)
    | _, isFalse h2 => isFalse (by intro hh; cases hh; exact h2 rfl)
def Json.deqObj : (a b : List (String × Json)) → Decidable (a = b)
  | [], [] => isTrue rfl
  | [], _ :: _ => isFalse (by intro h; cases h)
  | _ :: _, [] => isFalse (by intro h; cases h)
  | (k1, v1) :: xs, (k2, v2) :: ys =>
    match decEq k1 k2, Json.deq v1 v2, Json.deqObj xs ys with
    | isTrue h0, isTrue h1, isTrue h2 => isTrue (by rw [h0, h1, h2])
    | isFalse h0, _, _ => isFalse (by intro hh; cases hh; exact h0 rfl)
    | _, isFalse h1, _ => isFalse (by intro hh; cases hh; exact h1 rfl)
    | _, _, isFalse h2 => isFalse (by intro hh; cases hh; exact h2 rfl)
end

instance : DecidableEq Json := Json.deq

/-! ## Serialization: model of `json.dumps` -/

/-- Hexadecimal digit character (lowercase), as Python renders `\u00xx`. -/
def hexChar (n : Nat) : Char :=
  match n with
  | 0 => '0' | 1 => '1' | 2 => '2' | 3 => '3' | 4 => '4' | 5 => '5'
  | 6 => '6' | 7 => '7' | 8 => '8' | 9 => '9' | 10 => 'a' | 11 => 'b'
  | 12 => 'c' | 13 => 'd' | 14 => 'e' | _ => 'f'

/-- Decimal digit character. -/
def digitChar (d : Nat) : Char :=
  match d with
  | 0 => '0' | 1 => '1' | 2 => '2' | 3 => '3' | 4 => '4'
  | 5 => '5' | 6 => '6' | 7 => '7' | 8 => '8' | _ => '9'

/-- Decimal rendering of a natural number, most significant digit first. -/
def natChars (n : Nat) : List Char :=
  if n = 0 then ['0'] else ((Nat.digits 10 n).map digitChar).reverse

/-- Decimal rendering of a Python integer (optional minus sign). -/
def intChars (i : Int) : List Char :=
  if i < 0 then '-' :: natChars i.natAbs else natChars i.natAbs

/-- JSON escaping of one character, following Python's `ESCAPE_DCT`: the two
quoting characters and the five named control escapes get two-character forms,
any other control character becomes `\u00xx`. -/
def escapeChar (c : Char) : List Char :=
  if c = '"' then ['\\', '"']
  else if c = '\\' then ['\\', '\\']
  else if c = '\n' then ['\\', 'n']
  else if c = '\t' then ['\\', 't']
  else if c = '\r' then ['\\', 'r']
  else if c.toNat = 8 then ['\\', 'b']
  else if c.toNat = 12 then ['\\', 'f']
  else if c.toNat < 32 then ['\\', 'u', '0', '0', hexChar (c.toNat / 16), hexChar (c.toNat % 16)]
  else [c]

/-- Escape every character of a string body. -/
def escapeAll : List Char → List Char
  | [] => []
  | c :: cs => escapeChar c ++ escapeAll cs

/-- Rendered JSON string: quote, escaped body, quote. -/
def strChars (s : String) : List Char :=
  '"' :: (escapeAll s.data ++ ['"'])

mutual
/-- Characters of `json.dumps` for a value (default separators, so items are
joined with a comma and a space, and keys with a colon and a space). -/
def dumpsL : Json → List Char
  | .null => ['n', 'u', 'l', 'l']
  | .bool true => 't' :: ['r', 'u', 'e']
  | .bool false => ['f', 'a', 'l', 's', 'e']
  | .num n => intChars n
  | .str s => strChars s
  | .arr items => '[' :: (dumpsItemsL items ++ [']'])
  | .obj fields => '{' :: (dumpsFieldsL fields ++ ['}'])
/-- Array body: first item, then comma-space-separated continuation. -/
def dumpsItemsL : List Json → List Char
  | [] => []
  | x :: xs => dumpsL x ++ dumpsItemsTailL xs
def dumpsItemsTailL : List Json → List Char
  | [] => []
  | x :: xs => ',' :: ' ' :: (dumpsL x ++ dumpsItemsTailL xs)
/-- Object body: `"key": value` pairs, comma-space separated. -/
def dumpsFieldsL : List (String × Json) → List Char
  | [] => []
  | (k, v) :: fs => strChars k ++ ':' :: ' ' :: (dumpsL v ++ dumpsFieldsTailL fs)
def dumpsFieldsTailL : List (String × Json) → List Char
  | [] => []
  | (k, v) :: fs =>
    ',' :: ' ' :: (strChars k ++ ':' :: ' ' :: (dumpsL v ++ dumpsFieldsTailL fs))
end

/-- Model of `json.dumps` with the module defaults. -/
def dumps (j : Json) : String := ⟨dumpsL j⟩

/-! ## Deserialization: model of `json.loads` -/

/-- JSON whitespace. -/
def isWsChar (c : Char) : Bool := c = ' ' || c = '\t' || c = '\n' || c = '\r'

/-- Decimal digit test. -/
def isDigitChar (c : Char) : Bool := 48 ≤ c.toNat && c.toNat ≤ 57

/-- Numeric value of a decimal digit character. -/
def charVal (c : Char) : Nat := c.toNat - 48

/-- Numeric value of a hexadecimal digit character, if any. -/
def hexVal (c : Char) : Option Nat :=
  if 48 ≤ c.toNat && c.toNat ≤ 57 then some (c.toNat - 48)
  else if 97 ≤ c.toNat && c.toNat ≤ 102 then some (c.toNat - 87)
  else if 65 ≤ c.toNat && c.toNat ≤ 70 then some (c.toNat - 55)
  else none

/-- Drop leading JSON whitespace. -/
def skipW : List Char → List Char
  | [] => []
  | c :: cs => if isWsChar c then skipW cs else c :: cs

/-- Short escape forms accepted after a backslash. -/
def shortEscape (c : Char) : Option Char :=
  if c = '"' then some '"'
  else if c = '\\' then some '\\'
  else if c = '/' then some '/'
  else if c = 'n' then some '\n'
  else if c = 't' then some '\t'
  else if c = 'r' then some '\r'
  else if c = 'b' then some (Char.ofNat 8)
  else if c = 'f' then some (Char.ofNat 12)
  else none

/-- Read a string body up to the closing quote, undoing escapes. -/
def readStrBody : List Char → Option (List Char × List Char)
  | [] => none
  | c :: rest =>
    if c = '"' then some ([], rest)
    else if c = '\\' then
      match rest with
      | [] => none
      | e :: rest2 =>
        if e = 'u' then
          match rest2 with
          | a :: b :: c2 :: d :: rest3 =>
            match hexVal a, hexVal b, hexVal c2, hexVal d, readStrBody rest3 with
            | some va, some vb, some vc, some vd, some (body, r) =>
              some (Char.ofNat (((va * 16 + vb) * 16 + vc) * 16 + vd) :: body, r)
            | _, _, _, _, _ => none
          | _ => none
        else
          match shortEscape e, readStrBody rest2 with
          | some ch, some (body, r) => some (ch :: body, r)
          | _, _ => none
    else
      match readStrBody rest with
      | some (body, r) => some (c :: body, r)
      | none => none

/-- Longest leading run of decimal digits. -/
def grabDigits : List Char → List Char × List Char
  | [] => ([], [])
  | c :: cs =>
    if isDigitChar c then
      let (ds, r) := grabDigits cs
      (c :: ds, r)
    else ([], c :: cs)

/-- Value of a digit run, most significant first. -/
def readNat (ds : List Char) : Nat :=
  ds.foldl (fun a c => 10 * a + charVal c) 0

/-- Read an integer (optional minus sign, one or more digits). -/
def readInt : List Char → Option (Int × List Char)
  | [] => none
  | c :: t =>
    if c = '-' then
      let (ds, r) := grabDigits t
      if ds.isEmpty then none else some (-(readNat ds : Int), r)
    else
      let (ds, r) := grabDigits (c :: t)
      if ds.isEmpty then none else some ((readNat ds : Int), r)

mutual
/-- Read one JSON value (fuel-bounded recursive descent). -/
def readVal : Nat → List Char → Option (Json × List Char)
  | 0, _ => none
  | fuel + 1, cs =>
    match skipW cs with
    | 'n' :: 'u' :: 'l' :: 'l' :: rest => some (.null, rest)
    | 't' :: 'r' :: 'u' :: 'e' :: rest => some (.bool true, rest)
    | 'f' :: 'a' :: 'l' :: 's' :: 'e' :: rest => some (.bool false, rest)
    | '"' :: rest =>
      match readStrBody rest with
      | some (body, r) => some (.str ⟨body⟩, r)
      | none => none
    | '[' :: rest => readItems fuel rest
    | '{' :: rest => readFields fuel rest
    | other =>
      match readInt other with
      | some (i, r) => some (.num i, r)
      | none => none
/-- Read array items after the opening bracket. -/
def readItems : Nat → List Char → Option (Json × List Char)
  | 0, _ => none
  | fuel + 1, cs =>
    match skipW cs with
    | [] => none
    | c :: rest =>
      if c = ']' then some (.arr [], rest)
      else
        match readVal fuel (c :: rest) with
        | some (v, r) =>
          match readItemsTail fuel r with
          | some (vs, r2) => some (.arr (v :: vs), r2)
          | none => none
        | none => none
/-- Read `, item` continuations until the closing bracket. -/
def readItemsTail : Nat → List Char → Option (List Json × List Char)
  | 0, _ => none
  | fuel + 1, cs =>
    match skipW cs with
    | [] => none
    | c :: rest =>
      if c = ']' then some ([], rest)
      else if c = ',' then
        match readVal fuel rest with
        | some (v, r) =>
          match readItemsTail fuel r with
          | some (vs, r2) => some (v :: vs, r2)
          | none => none
        | none => none
      else none
/-- Read object fields after the opening brace. -/
def readFields : Nat → List Char → Option (Json × List Char)
  | 0, _ => none
  | fuel + 1, cs =>
    match skipW cs with
    | [] => none
    | c :: rest =>
      if c = '}' then some (.obj [], rest)
      else if c = '"' then
        match readStrBody rest with
        | some (key, r1) =>
          match skipW r1 with
          | ':' :: r2 =>
            match readVal fuel r2 with
            | some (v, r3) =>
              match readFieldsTail fuel r3 with
              | some (fs, r4) => some (.obj ((⟨key⟩, v) :: fs), r4)
              | none => none
            | none => none
          | _ => none
        | none => none
      else none
/-- Read `, "key": value` continuations until the closing brace. -/
def readFieldsTail : Nat → List Char → Option (List (String × Json) × List Char)
  | 0, _ => none
  | fuel + 1, cs =>
    match skipW cs with
    | [] => none
    | c :: rest =>
      if c = '}' then some ([], rest)
      else if c = ',' then
        match skipW rest with
        | '"' :: r1 =>
          match readStrBody r1 with
          | some (key, r2) =>
            match skipW r2 with
            | ':' :: r3 =>
              match readVal fuel r3 with
              | some (v, r4) =>
                match readFieldsTail fuel r4 with
                | some (fs, r5) => some ((⟨key⟩, v) :: fs, r5)
                | none => none
              | none => none
            | _ => none
          | none => none
        | _ => none
      else none
end

/-- Model of `json.loads`: parse one document and insist nothing but whitespace
remains. -/
def loads (s : String) : Option Json :=
  match readVal (2 * s.data.length + 2) s.data with
  | some (j, r) => if skipW r = [] then some j else none
  | none => none

/-! ## The `loads` / `dumps` round trip -/

/-- A remainder that cannot extend a number: empty or headed by a non-digit. -/
def noDigitHead : List Char → Bool
  | [] => true
  | c :: _ => !isDigitChar c

/-- A remainder as it occurs after a complete value inside a document: empty or
headed by one of the three delimiters `dumps` emits after a value. -/
def tailOk : List Char → Bool
  | [] => true
  | c :: _ => c = ',' || c = ']' || c = '}'

theorem charVal_digitChar (d : Nat) (h : d < 10) : charVal (digitChar d) = d := by
  interval_cases d <;> rfl

theorem isDigitChar_digitChar (d : Nat) : isDigitChar (digitChar d) = true := by
  unfold digitChar
  split <;> rfl

theorem natChars_digits (n : Nat) : ∀ c ∈ natChars n, isDigitChar c = true := by
  intro c hc
  unfold natChars at hc
  split at hc
  · simp only [List.mem_singleton] at hc
    subst hc
    rfl
  · rw [List.mem_reverse, List.mem_map] at hc
    obtain ⟨d, _, rfl⟩ := hc
    exact isDigitChar_digitChar d

theorem natChars_ne_nil (n : Nat) : natChars n ≠ [] := by
  unfold natChars
  split
  · simp
  · rename_i h
    simp [Nat.digits_ne_nil_iff_ne_zero, h]

theorem natChars_head (n : Nat) : ∃ c t, natChars n = c :: t ∧ isDigitChar c = true := by
  match h : natChars n with
  | [] => exact absurd h (natChars_ne_nil n)
  | c :: t => exact ⟨c, t, rfl, natChars_digits n c (h ▸ List.mem_cons_self _ _)⟩

theorem foldl_digit_run (L : List Nat) (hL : ∀ d ∈ L, d < 10) :
    ∀ a : Nat, ((L.map digitChar).reverse).foldl (fun x c => 10 * x + charVal c) a
      = a * 10 ^ L.length + Nat.ofDigits 10 L := by
  induction L with
  | nil => intro a; simp [Nat.ofDigits]
  | cons d T ih =>
    intro a
    have hd : d < 10 := hL d (by simp)
    have hT : ∀ x ∈ T, x < 10 := fun x hx => hL x (by simp [hx])
    simp only [List.map_cons, List.reverse_cons, List.foldl_append, List.foldl_cons,
      List.foldl_nil, List.length_cons]
    rw [ih hT a, charVal_digitChar d hd, Nat.ofDigits_cons]
    ring

theorem readNat_natChars (n : Nat) : readNat (natChars n) = n := by
  unfold natChars readNat
  split
  · rename_i h
    subst h
    rfl
  · have h10 : ∀ d ∈ Nat.digits 10 n, d < 10 :=
      fun d hd => Nat.digits_lt_base (by norm_num) hd
    rw [foldl_digit_run _ h10 0]
    simp [Nat.ofDigits_digits]

theorem grabDigits_stop {cs : List Char} (h : noDigitHead cs = true) :
    grabDigits cs = ([], cs) := by
  cases cs with
  | nil => rfl
  | cons c t =>
    simp only [noDigitHead, Bool.not_eq_true'] at h
    simp [grabDigits, h]

theorem grabDigits_run (ds rest : List Char) (hds : ∀ c ∈ ds, isDigitChar c = true)
    (hr : noDigitHead rest = true) : grabDigits (ds ++ rest) = (ds, rest) := by
  induction ds with
  | nil => simpa using grabDigits_stop hr
  | cons c t ih =>
    have hc := hds c (by simp)
    have ht := ih (fun x hx => hds x (by simp [hx]))
    simp [grabDigits, hc, ht]

theorem digit_not_minus {c : Char} (h : isDigitChar c = true) : c ≠ '-' := by
  intro hc
  subst hc
  exact absurd h (by decide)

theorem readInt_intChars (i : Int) (rest : List Char) (hr : noDigitHead rest = true) :
    readInt (intChars i ++ rest) = some (i, rest) := by
  by_cases hneg : i < 0
  · have harg : intChars i ++ rest = '-' :: (natChars i.natAbs ++ rest) := by
      simp [intChars, hneg]
    rw [harg]
    simp only [readInt, if_pos rfl]
    rw [grabDigits_run _ _ (natChars_digits _) hr]
    have hne := natChars_ne_nil i.natAbs
    simp only [List.isEmpty_eq_true, hne, if_false, readNat_natChars]
    have : -((i.natAbs : Nat) : Int) = i := by omega
    rw [this]
    simp
  · obtain ⟨c, t, hct, hc⟩ := natChars_head i.natAbs
    have harg : intChars i ++ rest = c :: (t ++ rest) := by
      simp [intChars, hneg, hct]
    rw [harg]
    simp only [readInt, if_neg (digit_not_minus hc)]
    have hgrab : grabDigits (c :: (t ++ rest)) = (c :: t, rest) := by
      have := grabDigits_run (c :: t) rest (by rw [← hct]; exact natChars_digits _) hr
      simpa using this
    rw [hgrab]
    simp only [List.isEmpty_cons, if_false]
    rw [show c :: t = natChars i.natAbs from hct.symm, readNat_natChars]
    have : ((i.natAbs : Nat) : Int) = i := by omega
    rw [this]
    simp

theorem hexVal_hexChar (k : Nat) (h : k < 16) : hexVal (hexChar k) = some k := by
  interval_cases k <;> rfl

theorem readStrBody_escapeChar (c : Char) (more : List Char) :
    readStrBody (escapeChar c ++ more) =
      match readStrBody more with
      | some (body, r) => some (c :: body, r)
      | none => none := by
  unfold escapeChar
  split_ifs with h1 h2 h3 h4 h5 h6 h7 h8
  · subst h1
    rcases hm : readStrBody more with _ | ⟨body, r⟩ <;>
      (rw [readStrBody.eq_def]; simp [shortEscape, hm])
  · subst h2
    rcases hm : readStrBody more with _ | ⟨body, r⟩ <;>
      (rw [readStrBody.eq_def]; simp [shortEscape, hm])
  · subst h3
    rcases hm : readStrBody more with _ | ⟨body, r⟩ <;>
      (rw [readStrBody.eq_def]; simp [shortEscape, hm])
  · subst h4
    rcases hm : readStrBody more with _ | ⟨body, r⟩ <;>
      (rw [readStrBody.eq_def]; simp [shortEscape, hm])
  · subst h5
    rcases hm : readStrBody more with _ | ⟨body, r⟩ <;>
      (rw [readStrBody.eq_def]; simp [shortEscape, hm])
  · have hc : Char.ofNat 8 = c := by rw [← h6, Char.ofNat_toNat]
    rcases hm : readStrBody more with _ | ⟨body, r⟩ <;>
      (rw [readStrBody.eq_def]; simp [shortEscape, hm, hc]) <;> exact hc
  · have hc : Char.ofNat 12 = c := by rw [← h7, Char.ofNat_toNat]
    rcases hm : readStrBody more with _ | ⟨body, r⟩ <;>
      (rw [readStrBody.eq_def]; simp [shortEscape, hm, hc]) <;> exact hc
  · have hdiv : c.toNat / 16 < 16 := by omega
    have hmod : c.toNat % 16 < 16 := Nat.mod_lt _ (by norm_num)
    have harith : ((0 * 16 + 0) * 16 + c.toNat / 16) * 16 + c.toNat % 16 = c.toNat := by
      omega
    have h0 : hexVal '0' = some 0 := rfl
    rcases hm : readStrBody more with _ | ⟨body, r⟩ <;>
      (rw [readStrBody.eq_def]
       simp [hexVal_hexChar _ hdiv, hexVal_hexChar _ hmod, h0, harith,
         Nat.div_add_mod, Char.ofNat_toNat, hm]) <;>
      (rw [show c.toNat / 16 * 16 + c.toNat % 16 = c.toNat from by omega]
       exact Char.ofNat_toNat c)
  · rcases hm : readStrBody more with _ | ⟨body, r⟩ <;>
      (rw [List.singleton_append, readStrBody.eq_def]; simp [if_neg h1, if_neg h2, hm])

theorem readStrBody_escapeAll (body : List Char) : ∀ rest,
    readStrBody (escapeAll body ++ '"' :: rest) = some (body, rest) := by
  induction body with
  | nil =>
    intro rest
    simp only [escapeAll, List.nil_append]
    rw [readStrBody.eq_def]
    simp
  | cons c cs ih =>
    intro rest
    rw [escapeAll, List.append_assoc, readStrBody_escapeChar, ih]


mutual
/-- Fuel sufficient for `readVal` on a rendered value. -/
def jfuel : Json → Nat
  | .null => 1
  | .bool _ => 1
  | .num _ => 1
  | .str _ => 1
  | .arr xs => lfuel xs + 1
  | .obj fs => ffuel fs + 1
def lfuel : List Json → Nat
  | [] => 1
  | x :: xs => jfuel x + lfuel xs + 1
def ffuel : List (String × Json) → Nat
  | [] => 1
  | (_, v) :: fs => jfuel v + ffuel fs + 1
end

theorem jfuel_pos (j : Json) : 1 ≤ jfuel j := by
  cases j <;> simp [jfuel] <;> omega

theorem skipW_noop {c : Char} (h : isWsChar c = false) (t : List Char) :
    skipW (c :: t) = c :: t := by
  simp [skipW, h]

theorem skipW_space (t : List Char) : skipW (' ' :: t) = skipW t := by
  simp [skipW, isWsChar]

theorem digit_starts {c : Char} (h : isDigitChar c = true) :
    isWsChar c = false ∧ c ≠ 'n' ∧ c ≠ 't' ∧ c ≠ 'f' ∧ c ≠ '"' ∧ c ≠ '[' ∧
    c ≠ '{' ∧ c ≠ ']' ∧ c ≠ '}' ∧ c ≠ ',' := by
  refine ⟨?_, ?_, ?_, ?_, ?_, ?_, ?_, ?_, ?_, ?_⟩
  · cases hw : isWsChar c with
    | false => rfl
    | true =>
      exfalso
      simp only [isWsChar, Bool.or_eq_true, decide_eq_true_eq] at hw
      rcases hw with ((h1 | h1) | h1) | h1 <;> (subst h1; exact absurd h (by decide))
  all_goals (intro h1; subst h1; exact absurd h (by decide))

theorem dumpsL_head (j : Json) :
    ∃ c t, dumpsL j = c :: t ∧ isWsChar c = false ∧ c ≠ ']' ∧ c ≠ '}' ∧ c ≠ ',' := by
  cases j with
  | null =>
    exact ⟨'n', ['u', 'l', 'l'], rfl, by decide, by decide, by decide, by decide⟩
  | bool b =>
    cases b with
    | false =>
      exact ⟨'f', ['a', 'l', 's', 'e'], rfl, by decide, by decide, by decide, by decide⟩
    | true =>
      exact ⟨'t', ['r', 'u', 'e'], rfl, by decide, by decide, by decide, by decide⟩
  | str s =>
    exact ⟨'"', escapeAll s.data ++ ['"'], rfl, by decide, by decide, by decide, by decide⟩
  | arr xs =>
    exact ⟨'[', dumpsItemsL xs ++ [']'], rfl, by decide, by decide, by decide, by decide⟩
  | obj fs =>
    exact ⟨'{', dumpsFieldsL fs ++ ['}'], rfl, by decide, by decide, by decide, by decide⟩
  | num n =>
    by_cases hn : n < 0
    · exact ⟨'-', natChars n.natAbs, by simp [dumpsL, intChars, hn], by decide, by decide,
        by decide, by decide⟩
    · obtain ⟨c, t, hct, hc⟩ := natChars_head n.natAbs
      obtain ⟨hws, _, _, _, _, _, _, hrb, hcb, hcm⟩ := digit_starts hc
      exact ⟨c, t, by simp [dumpsL, intChars, hn, hct], hws, hrb, hcb, hcm⟩

theorem skipW_dumpsL (j : Json) (x : List Char) :
    skipW (dumpsL j ++ x) = dumpsL j ++ x := by
  obtain ⟨c, t, hct, hws, _, _, _⟩ := dumpsL_head j
  rw [hct, List.cons_append, skipW_noop hws]

theorem readVal_readInt (f : Nat) (c : Char) (t : List Char)
    (hws : isWsChar c = false) (hn : c ≠ 'n') (ht : c ≠ 't') (hf : c ≠ 'f')
    (hq : c ≠ '"') (hlb : c ≠ '[') (hob : c ≠ '{') :
    readVal (f + 1) (c :: t) =
      match readInt (c :: t) with
      | some (i, r) => some (Json.num i, r)
      | none => none := by
  rw [readVal]
  rw [skipW_noop hws]
  simp [hn, ht, hf, hq, hlb, hob]

theorem tailOk_items (xs : List Json) (rest : List Char) :
    tailOk (dumpsItemsTailL xs ++ ']' :: rest) = true := by
  cases xs <;> simp [dumpsItemsTailL, tailOk]

theorem tailOk_fields (fs : List (String × Json)) (rest : List Char) :
    tailOk (dumpsFieldsTailL fs ++ '}' :: rest) = true := by
  cases fs with
  | nil => simp [dumpsFieldsTailL, tailOk]
  | cons kv fs =>
    obtain ⟨k, v⟩ := kv
    simp [dumpsFieldsTailL, tailOk]

theorem noDigitHead_of_tailOk {cs : List Char} (h : tailOk cs = true) :
    noDigitHead cs = true := by
  cases cs with
  | nil => rfl
  | cons c t =>
    simp only [tailOk, Bool.or_eq_true, decide_eq_true_eq] at h
    rcases h with (h1 | h1) | h1 <;> (subst h1; rfl)

theorem lfuel_pos (xs : List Json) : 1 ≤ lfuel xs := by
  cases xs <;> simp [lfuel]

theorem ffuel_pos (fs : List (String × Json)) : 1 ≤ ffuel fs := by
  cases fs with
  | nil => simp [ffuel]
  | cons kv fs => obtain ⟨k, v⟩ := kv; simp [ffuel]

theorem readVal_lit_null (fuel : Nat) (rest : List Char) :
    readVal (fuel + 1) ('n' :: 'u' :: 'l' :: 'l' :: rest) = some (.null, rest) := by
  rw [readVal, skipW_noop (by decide)]
  rfl

theorem readVal_lit_true (fuel : Nat) (rest : List Char) :
    readVal (fuel + 1) ('t' :: 'r' :: 'u' :: 'e' :: rest) = some (.bool true, rest) := by
  rw [readVal, skipW_noop (by decide)]
  rfl

theorem readVal_lit_false (fuel : Nat) (rest : List Char) :
    readVal (fuel + 1) ('f' :: 'a' :: 'l' :: 's' :: 'e' :: rest) = some (.bool false, rest) := by
  rw [readVal, skipW_noop (by decide)]
  rfl

theorem readVal_quote (fuel : Nat) (z : List Char) :
    readVal (fuel + 1) ('"' :: z)
      = match readStrBody z with
        | some (body, r) => some (.str ⟨body⟩, r)
        | none => none := by
  rw [readVal, skipW_noop (by decide)]
  rfl

theorem readVal_bracket (fuel : Nat) (z : List Char) :
    readVal (fuel + 1) ('[' :: z) = readItems fuel z := by
  rw [readVal, skipW_noop (by decide)]
  rfl

theorem readVal_brace (fuel : Nat) (z : List Char) :
    readVal (fuel + 1) ('{' :: z) = readFields fuel z := by
  rw [readVal, skipW_noop (by decide)]
  rfl

theorem readVal_space (fuel : Nat) (z : List Char) :
    readVal (fuel + 1) (' ' :: z) = readVal (fuel + 1) z := by
  rw [readVal, skipW_space]
  rw [readVal]

theorem readItems_close (fuel : Nat) (rest : List Char) :
    readItems (fuel + 1) (']' :: rest) = some (.arr [], rest) := by
  rw [readItems, skipW_noop (by decide)]
  rfl

theorem readItems_cons (fuel : Nat) (c : Char) (z : List Char)
    (hws : isWsChar c = false) (hne : c ≠ ']') :
    readItems (fuel + 1) (c :: z)
      = match readVal fuel (c :: z) with
        | some (v, r) =>
          match readItemsTail fuel r with
          | some (vs, r2) => some (.arr (v :: vs), r2)
          | none => none
        | none => none := by
  rw [readItems, skipW_noop hws]
  simp [hne]

theorem readItemsTail_close (fuel : Nat) (rest : List Char) :
    readItemsTail (fuel + 1) (']' :: rest) = some ([], rest) := by
  rw [readItemsTail, skipW_noop (by decide)]
  rfl

theorem readItemsTail_comma (fuel : Nat) (z : List Char) :
    readItemsTail (fuel + 1) (',' :: z)
      = match readVal fuel z with
        | some (v, r) =>
          match readItemsTail fuel r with
          | some (vs, r2) => some (v :: vs, r2)
          | none => none
        | none => none := by
  rw [readItemsTail, skipW_noop (by decide)]
  simp

theorem readFields_close (fuel : Nat) (rest : List Char) :
    readFields (fuel + 1) ('}' :: rest) = some (.obj [], rest) := by
  rw [readFields, skipW_noop (by decide)]
  rfl

theorem readFields_key (fuel : Nat) (z : List Char) :
    readFields (fuel + 1) ('"' :: z)
      = match readStrBody z with
        | some (key, r1) =>
          match skipW r1 with
          | ':' :: r2 =>
            match readVal fuel r2 with
            | some (v, r3) =>
              match readFieldsTail fuel r3 with
              | some (fs, r4) => some (.obj ((⟨key⟩, v) :: fs), r4)
              | none => none
            | none => none
          | _ => none
        | none => none := by
  rw [readFields, skipW_noop (by decide)]
  simp

theorem readFieldsTail_close (fuel : Nat) (rest : List Char) :
    readFieldsTail (fuel + 1) ('}' :: rest) = some ([], rest) := by
  rw [readFieldsTail, skipW_noop (by decide)]
  rfl

theorem readFieldsTail_comma (fuel : Nat) (r1 : List Char) :
    readFieldsTail (fuel + 1) (',' :: ' ' :: '"' :: r1)
      = match readStrBody r1 with
        | some (key, r2) =>
          match skipW r2 with
          | ':' :: r3 =>
            match readVal fuel r3 with
            | some (v, r4) =>
              match readFieldsTail fuel r4 with
              | some (fs, r5) => some ((⟨key⟩, v) :: fs, r5)
              | none => none
            | none => none
          | _ => none
        | none => none := by
  have hsw : skipW (' ' :: '"' :: r1) = '"' :: r1 := by
    rw [skipW_space, skipW_noop (by decide)]
  rw [readFieldsTail, skipW_noop (by decide)]
  simp [hsw]

mutual
theorem rt_val : ∀ (j : Json) (f : Nat) (rest : List Char), jfuel j ≤ f →
    tailOk rest = true → readVal f (dumpsL j ++ rest) = some (j, rest)
  | .null, f, rest, hf, _ => by
    obtain ⟨g, rfl⟩ : ∃ g, f = g + 1 := ⟨f - 1, by simp [jfuel] at hf; omega⟩
    rw [show dumpsL Json.null ++ rest = 'n' :: 'u' :: 'l' :: 'l' :: rest from rfl]
    rw [readVal_lit_null]
  | .bool true, f, rest, hf, _ => by
    obtain ⟨g, rfl⟩ : ∃ g, f = g + 1 := ⟨f - 1, by simp [jfuel] at hf; omega⟩
    rw [show dumpsL (Json.bool true) ++ rest = 't' :: 'r' :: 'u' :: 'e' :: rest from rfl]
    rw [readVal_lit_true]
  | .bool false, f, rest, hf, _ => by
    obtain ⟨g, rfl⟩ : ∃ g, f = g + 1 := ⟨f - 1, by simp [jfuel] at hf; omega⟩
    rw [show dumpsL (Json.bool false) ++ rest
      = 'f' :: 'a' :: 'l' :: 's' :: 'e' :: rest from rfl]
    rw [readVal_lit_false]
  | .num i, f, rest, hf, hrest => by
    obtain ⟨g, rfl⟩ : ∃ g, f = g + 1 := ⟨f - 1, by simp [jfuel] at hf; omega⟩
    have hnd := noDigitHead_of_tailOk hrest
    have hri := readInt_intChars i rest hnd
    by_cases hneg : i < 0
    · have harg : dumpsL (Json.num i) ++ rest = '-' :: (natChars i.natAbs ++ rest) := by
        simp [dumpsL, intChars, hneg]
      rw [harg, readVal_readInt g '-' _ (by decide) (by decide) (by decide) (by decide)
        (by decide) (by decide) (by decide)]
      rw [show '-' :: (natChars i.natAbs ++ rest) = intChars i ++ rest from by
        simp [intChars, hneg]]
      rw [hri]
    · obtain ⟨c, t, hct, hc⟩ := natChars_head i.natAbs
      obtain ⟨hws, hn, ht, hf2, hq, hlb, hob, _, _, _⟩ := digit_starts hc
      have harg : dumpsL (Json.num i) ++ rest = c :: (t ++ rest) := by
        simp [dumpsL, intChars, hneg, hct]
      rw [harg, readVal_readInt g c _ hws hn ht hf2 hq hlb hob]
      rw [show c :: (t ++ rest) = intChars i ++ rest from by simp [intChars, hneg, hct]]
      rw [hri]
  | .str s, f, rest, hf, _ => by
    obtain ⟨g, rfl⟩ : ∃ g, f = g + 1 := ⟨f - 1, by simp [jfuel] at hf; omega⟩
    have harg : dumpsL (Json.str s) ++ rest = '"' :: (escapeAll s.data ++ '"' :: rest) := by
      simp [dumpsL, strChars]
    rw [harg, readVal_quote, readStrBody_escapeAll]
  | .arr [], f, rest, hf, _ => by
    simp only [jfuel, lfuel] at hf
    obtain ⟨g, rfl⟩ : ∃ g, f = g + 1 := ⟨f - 1, by omega⟩
    obtain ⟨g2, rfl⟩ : ∃ g2, g = g2 + 1 := ⟨g - 1, by omega⟩
    have harg : dumpsL (Json.arr []) ++ rest = '[' :: (']' :: rest) := by
      simp [dumpsL, dumpsItemsL]
    rw [harg, readVal_bracket, readItems_close]
  | .arr (x :: xs), f, rest, hf, _ => by
    simp only [jfuel, lfuel] at hf
    have hjx := jfuel_pos x
    have hlx := lfuel_pos xs
    obtain ⟨g, rfl⟩ : ∃ g, f = g + 1 := ⟨f - 1, by omega⟩
    obtain ⟨g2, rfl⟩ : ∃ g2, g = g2 + 1 := ⟨g - 1, by omega⟩
    have harg : dumpsL (Json.arr (x :: xs)) ++ rest
        = '[' :: (dumpsL x ++ (dumpsItemsTailL xs ++ ']' :: rest)) := by
      simp [dumpsL, dumpsItemsL]
    rw [harg, readVal_bracket]
    obtain ⟨c, t, hct, hws, hbr, _, _⟩ := dumpsL_head x
    rw [hct, List.cons_append, readItems_cons g2 c _ hws hbr, ← List.cons_append, ← hct]
    rw [rt_val x g2 _ (by omega) (tailOk_items xs rest)]
    simp only [rt_itemsTail xs g2 rest (by omega)]
  | .obj [], f, rest, hf, _ => by
    simp only [jfuel, ffuel] at hf
    obtain ⟨g, rfl⟩ : ∃ g, f = g + 1 := ⟨f - 1, by omega⟩
    obtain ⟨g2, rfl⟩ : ∃ g2, g = g2 + 1 := ⟨g - 1, by omega⟩
    have harg : dumpsL (Json.obj []) ++ rest = '{' :: ('}' :: rest) := by
      simp [dumpsL, dumpsFieldsL]
    rw [harg, readVal_brace, readFields_close]
  | .obj ((k, v) :: fs), f, rest, hf, _ => by
    simp only [jfuel, ffuel] at hf
    have hjv := jfuel_pos v
    have hff := ffuel_pos fs
    obtain ⟨g, rfl⟩ : ∃ g, f = g + 1 := ⟨f - 1, by omega⟩
    obtain ⟨g2, rfl⟩ : ∃ g2, g = g2 + 1 := ⟨g - 1, by omega⟩
    obtain ⟨g3, rfl⟩ : ∃ g3, g2 = g3 + 1 := ⟨g2 - 1, by omega⟩
    have harg : dumpsL (Json.obj ((k, v) :: fs)) ++ rest
        = '{' :: ('"' :: (escapeAll k.data
            ++ '"' :: (':' :: (' ' :: (dumpsL v
              ++ (dumpsFieldsTailL fs ++ '}' :: rest)))))) := by
      simp [dumpsL, dumpsFieldsL, strChars]
    rw [harg, readVal_brace, readFields_key, readStrBody_escapeAll]
    simp only [skipW_noop (show isWsChar ':' = false from by decide), readVal_space,
      rt_val v (g3 + 1) (dumpsFieldsTailL fs ++ '}' :: rest) (by omega)
        (tailOk_fields fs rest),
      rt_fieldsTail fs (g3 + 1) rest (by omega)]
termination_by j _ _ _ _ => sizeOf j
theorem rt_itemsTail : ∀ (xs : List Json) (f : Nat) (rest : List Char), lfuel xs ≤ f →
    readItemsTail f (dumpsItemsTailL xs ++ ']' :: rest) = some (xs, rest)
  | [], f, rest, hf => by
    simp only [lfuel] at hf
    obtain ⟨g, rfl⟩ : ∃ g, f = g + 1 := ⟨f - 1, by omega⟩
    rw [show dumpsItemsTailL [] ++ ']' :: rest = ']' :: rest from by simp [dumpsItemsTailL]]
    rw [readItemsTail_close]
  | x :: xs, f, rest, hf => by
    simp only [lfuel] at hf
    have hjx := jfuel_pos x
    have hlx := lfuel_pos xs
    obtain ⟨g, rfl⟩ : ∃ g, f = g + 1 := ⟨f - 1, by omega⟩
    obtain ⟨g2, rfl⟩ : ∃ g2, g = g2 + 1 := ⟨g - 1, by omega⟩
    have harg : dumpsItemsTailL (x :: xs) ++ ']' :: rest
        = ',' :: (' ' :: (dumpsL x ++ (dumpsItemsTailL xs ++ ']' :: rest))) := by
      simp [dumpsItemsTailL]
    rw [harg, readItemsTail_comma, readVal_space]
    rw [rt_val x (g2 + 1) _ (by omega) (tailOk_items xs rest)]
    simp only [rt_itemsTail xs (g2 + 1) rest (by omega)]
termination_by xs _ _ _ => sizeOf xs
theorem rt_fieldsTail : ∀ (fs : List (String × Json)) (f : Nat) (rest : List Char),
    ffuel fs ≤ f →
    readFieldsTail f (dumpsFieldsTailL fs ++ '}' :: rest) = some (fs, rest)
  | [], f, rest, hf => by
    simp only [ffuel] at hf
    obtain ⟨g, rfl⟩ : ∃ g, f = g + 1 := ⟨f - 1, by omega⟩
    rw [show dumpsFieldsTailL [] ++ '}' :: rest = '}' :: rest from by simp [dumpsFieldsTailL]]
    rw [readFieldsTail_close]
  | (k, v) :: fs, f, rest, hf => by
    simp only [ffuel] at hf
    have hjv := jfuel_pos v
    have hff := ffuel_pos fs
    obtain ⟨g, rfl⟩ : ∃ g, f = g + 1 := ⟨f - 1, by omega⟩
    obtain ⟨g2, rfl⟩ : ∃ g2, g = g2 + 1 := ⟨g - 1, by omega⟩
    have harg : dumpsFieldsTailL ((k, v) :: fs) ++ '}' :: rest
        = ',' :: (' ' :: ('"' :: (escapeAll k.data
            ++ '"' :: (':' :: (' ' :: (dumpsL v
              ++ (dumpsFieldsTailL fs ++ '}' :: rest))))))) := by
      simp [dumpsFieldsTailL, strChars]
    rw [harg, readFieldsTail_comma, readStrBody_escapeAll]
    simp only [skipW_noop (show isWsChar ':' = false from by decide), readVal_space,
      rt_val v (g2 + 1) (dumpsFieldsTailL fs ++ '}' :: rest) (by omega)
        (tailOk_fields fs rest),
      rt_fieldsTail fs (g2 + 1) rest (by omega)]
termination_by fs _ _ _ => sizeOf fs
end

theorem strChars_len (s : String) : 2 ≤ (strChars s).length := by
  simp [strChars]

theorem dumpsL_len (j : Json) : 1 ≤ (dumpsL j).length := by
  obtain ⟨c, t, hct, _⟩ := dumpsL_head j
  simp [hct]

mutual
theorem jfuel_le : ∀ j : Json, jfuel j ≤ 2 * (dumpsL j).length
  | .null => by simp [jfuel, dumpsL]
  | .bool true => by simp [jfuel, dumpsL]
  | .bool false => by simp [jfuel, dumpsL]
  | .num i => by
    have := dumpsL_len (Json.num i)
    simp only [jfuel]
    omega
  | .str s => by
    have := dumpsL_len (Json.str s)
    simp only [jfuel]
    omega
  | .arr xs => by
    have h1 := lfuel_le xs
    have h2 := dumpsItemsTailL_lfuel xs
    simp only [jfuel, dumpsL, List.length_cons, List.length_append]
    cases xs with
    | nil => simp [lfuel, dumpsItemsL]
    | cons x xs =>
      have h3 := jfuel_le x
      have h4 := dumpsItemsTailL_lfuel xs
      simp only [lfuel, dumpsItemsL, List.length_append, List.length_singleton]
      omega
  | .obj fs => by
    simp only [jfuel, dumpsL, List.length_cons, List.length_append]
    cases fs with
    | nil => simp [ffuel, dumpsFieldsL]
    | cons kv fs =>
      obtain ⟨k, v⟩ := kv
      have h3 := jfuel_le v
      have h4 := dumpsFieldsTailL_ffuel fs
      have h5 := strChars_len k
      simp only [ffuel, dumpsFieldsL, List.length_append, List.length_cons,
        List.length_singleton]
      omega
termination_by j => sizeOf j
theorem lfuel_le : ∀ xs : List Json, lfuel xs ≤ 2 * (dumpsItemsL xs).length + 2
  | [] => by simp [lfuel, dumpsItemsL]
  | x :: xs => by
    have h1 := jfuel_le x
    have h2 := dumpsItemsTailL_lfuel xs
    simp only [lfuel, dumpsItemsL, List.length_append]
    omega
termination_by xs => sizeOf xs
theorem dumpsItemsTailL_lfuel : ∀ xs : List Json, lfuel xs ≤ 2 * (dumpsItemsTailL xs).length + 1
  | [] => by simp [lfuel, dumpsItemsTailL]
  | x :: xs => by
    have h1 := jfuel_le x
    have h2 := dumpsItemsTailL_lfuel xs
    simp only [lfuel, dumpsItemsTailL, List.length_cons, List.length_append]
    omega
termination_by xs => sizeOf xs
theorem dumpsFieldsTailL_ffuel :
    ∀ fs : List (String × Json), ffuel fs ≤ 2 * (dumpsFieldsTailL fs).length + 1
  | [] => by simp [ffuel, dumpsFieldsTailL]
  | (k, v) :: fs => by
    have h1 := jfuel_le v
    have h2 := dumpsFieldsTailL_ffuel fs
    have h3 := strChars_len k
    simp only [ffuel, dumpsFieldsTailL, List.length_cons, List.length_append]
    omega
termination_by fs => sizeOf fs
end

/-- The Python `json` round trip the SDK relies on: `json.loads` of `json.dumps`
recovers the value exactly. -/
theorem loads_dumps (j : Json) : loads (dumps j) = some j := by
  have hfl : jfuel j ≤ 2 * (dumpsL j).length + 2 :=
    le_trans (jfuel_le j) (by omega)
  have h := rt_val j (2 * (dumpsL j).length + 2) [] hfl rfl
  rw [List.append_nil] at h
  unfold loads dumps
  simp only [h]
  rfl

/-! ## Stored messages and parts (`message_converter.py`)

A stored message is an ordered list of parts; the converter maps between this
persisted form and the provider-call message list. -/

/-- One element of a stored message's `parts` array. -/
inductive Part where
  | text (text : String)
  | tool_call (tool_call_id tool_name : String) (args : Json)
  | tool_result (tool_call_id tool_name : String) (result : Json)
deriving Repr, DecidableEq

/-- A stored attachment (only the fields the converter reads). -/
structure Attachment where
  content_type : String
  url : String
deriving Repr, DecidableEq

/-- A persisted message row as the converter consumes it. -/
structure StoredMsg where
  role : String
  parts : List Part
  attachments : List Attachment
deriving Repr, DecidableEq

/-- One block of a multimodal user-content array. -/
inductive ContentBlock where
  | text (text : String)
  | image_url (url : String)
deriving Repr, DecidableEq

/-- The `content` slot of a provider-call message: missing key, explicit
`None`, a plain string, or a multimodal block array. -/
inductive MsgContent where
  | absent
  | null
  | str (text : String)
  | blocks (blocks : List ContentBlock)
deriving Repr, DecidableEq

/-- An assistant wire tool call (OpenAI function-call shape).  The constant
`"type": "function"` member carries no information and is omitted from the
embedding.  `arguments` is a `Json` value in which `Json.str` plays the Python
`str` case of the `isinstance` checks. -/
structure WireToolCall where
  id : String
  name : String
  arguments : Json
deriving Repr, DecidableEq

/-- A provider-call message built by the converter. -/
structure ModelMessage where
  role : String
  content : MsgContent := .absent
  tool_calls : Option (List WireToolCall) := none
  tool_call_id : Option String := none
deriving Repr, DecidableEq

/-- Concatenated text of the `text` parts, newline-joined (`_extract_text`). -/
def extract_text (parts : List Part) : String :=
  String.intercalate "\n" (parts.filterMap (fun p =>
    match p with
    | .text t => some t
    | _ => none))

/-- User content: plain text without attachments, otherwise a block array when
more than one block results (`_build_user_content`). -/
def build_user_content (parts : List Part) (attachments : List Attachment) : MsgContent :=
  let text := extract_text parts
  if attachments.isEmpty then .str text
  else
    let content :=
      (if text ≠ "" then [ContentBlock.text text] else []) ++
        attachments.filterMap (fun a =>
          if a.content_type.startsWith "image/" then some (ContentBlock.image_url a.url)
          else none)
    if 1 < content.length then .blocks content else .str text

/-- Wire form of a stored tool call's `args`: a string is passed through, any
other value is `json.dumps`ed. -/
def wireArgs (a : Json) : Json :=
  match a with
  | .str s => .str s
  | other => .str (dumps other)

/-- Content of a synthesized tool message: a string result is passed through,
anything else is `json.dumps`ed. -/
def tool_result_content (r : Json) : String :=
  match r with
  | .str s => s
  | other => dumps other

/-- Tool-call parts of a stored message, in order. -/
def toolCallParts (parts : List Part) : List (String × String × Json) :=
  parts.filterMap (fun p =>
    match p with
    | .tool_call i n a => some (i, n, a)
    | _ => none)

/-- Assistant message with optional tool calls (`_build_assistant_message`). -/
def build_assistant_message (parts : List Part) : Option ModelMessage :=
  let text := extract_text parts
  let tcs := toolCallParts parts
  if text = "" ∧ tcs = [] then none
  else
    some {
      role := "assistant"
      content := if text ≠ "" then .str text else (if tcs ≠ [] then .null else .absent)
      tool_calls :=
        if tcs ≠ [] then
          some (tcs.map (fun tc => { id := tc.1, name := tc.2.1, arguments := wireArgs tc.2.2 }))
        else none }

/-- Synthesized tool-role messages for the `tool_result` parts of a message. -/
def toolResultMessages (parts : List Part) : List ModelMessage :=
  parts.filterMap (fun p =>
    match p with
    | .tool_result i _ r =>
      some { role := "tool", content := .str (tool_result_content r), tool_call_id := some i }
    | _ => none)

/-- Python truthiness of a built user content value. -/
def contentTruthy : MsgContent → Bool
  | .str t => t ≠ ""
  | .blocks bs => !bs.isEmpty
  | _ => false

/-- `MessageConverter.to_model_messages`: stored history to provider-call
messages. -/
def to_model_messages (msgs : List StoredMsg) : List ModelMessage :=
  msgs.flatMap (fun msg =>
    let parts := msg.parts
    if msg.role = "system" then
      let text := extract_text parts
      if text ≠ "" then [{ role := "system", content := .str text }] else []
    else if msg.role = "user" then
      let content := build_user_content parts msg.attachments
      if contentTruthy content then [{ role := "user", content := content }] else []
    else if msg.role = "assistant" then
      (match build_assistant_message parts with
        | some m => [m]
        | none => []) ++ toolResultMessages parts
    else if msg.role = "tool" then
      toolResultMessages parts
    else [])

/-- Arguments of a wire tool call as stored back into a part: a string is
parsed as JSON, kept as the string when parsing fails (`json.JSONDecodeError`
passes). -/
def parsedArgs (a : Json) : Json :=
  match a with
  | .str s =>
    match loads s with
    | some j => j
    | none => .str s
  | other => other

/-- A reconstructed message row (`role`, `parts`, `metadata`). -/
structure ResponseMsg where
  role : String
  parts : List Part
  metadata : Json
deriving Repr, DecidableEq

/-- `MessageConverter.from_model_response`: an LLM response back to stored
parts. -/
def from_model_response (role : String) (content : String)
    (tool_calls : List WireToolCall) (metadata : Json := .obj []) : ResponseMsg :=
  { role := role
    parts :=
      (if content ≠ "" then [Part.text content] else []) ++
        tool_calls.map (fun tc => Part.tool_call tc.id tc.name (parsedArgs tc.arguments))
    metadata := metadata }

/-! ## Tool registry (`tool_registry.py`) -/

/-- A registered tool.  The executor models `execute_fn`; a raised exception is
an `Except.error` carrying `str(e)`.  Whether the executor is a coroutine or a
sync callable run in the thread pool (`is_async`) does not change the returned
value, which is all the embedding observes. -/
structure ToolDefinition where
  name : String
  description : String
  parameters_schema : Json
  execute_fn : Json → Except String Json
  is_async : Bool := false

/-- The registry's name-keyed mapping, insertion-ordered like a Python dict. -/
structure ToolRegistry where
  tools : List (String × ToolDefinition)

/-- Python-dict assignment: overwrite in place, else append. -/
def dictSet : List (String × ToolDefinition) → String → ToolDefinition →
    List (String × ToolDefinition)
  | [], n, d => [(n, d)]
  | (k, v) :: rest, n, d =>
    if k = n then (k, d) :: rest else (k, v) :: dictSet rest n d

/-- `ToolRegistry.register` (duplicate names overwrite: last wins). -/
def ToolRegistry.register (r : ToolRegistry) (d : ToolDefinition) : ToolRegistry :=
  ⟨dictSet r.tools d.name d⟩

/-- `ToolRegistry.get`. -/
def ToolRegistry.get (r : ToolRegistry) (name : String) : Option ToolDefinition :=
  (r.tools.find? (fun p => p.1 == name)).map (fun p => p.2)

/-- `ToolRegistry.has_tools`. -/
def ToolRegistry.has_tools (r : ToolRegistry) : Bool :=
  !r.tools.isEmpty

/-- `ToolDefinition.to_openai_tool`. -/
def ToolDefinition.to_openai_tool (d : ToolDefinition) : Json :=
  .obj [("type", .str "function"),
        ("function", .obj [("name", .str d.name), ("description", .str d.description),
                           ("parameters", d.parameters_schema)])]

/-- `ToolRegistry.to_openai_tools`. -/
def ToolRegistry.to_openai_tools (r : ToolRegistry) : List Json :=
  r.tools.map (fun p => p.2.to_openai_tool)

/-- The error `ToolRegistry.execute` raises for an unregistered name (the
`KeyError` before the executor try block). -/
inductive ToolErr where
  | notFound (name : String)
deriving Repr, DecidableEq

/-- Message text of the raised `KeyError`.  (Python wraps the name in single
quotes and `str()` of a `KeyError` adds another pair; the decoration carries no
information and is left out.) -/
def toolErrMsg : ToolErr → String
  | .notFound n => "Tool " ++ n ++ " not found in registry"

/-- `json.loads` of string-encoded arguments, `{}` when undecodable. -/
def parseToolArgs (s : String) : Json :=
  match loads s with
  | some j => j
  | none => .obj []

/-- Defensive argument handling: string-encoded arguments are JSON-parsed
(`{}` when undecodable), anything else passes through. -/
def normalizeArgs (arguments : Json) : Json :=
  match arguments with
  | .str s => parseToolArgs s
  | other => other

/-- `ToolRegistry.execute`: raises (returns `.error`) for an unknown name;
parses string arguments defensively; catches executor exceptions and converts
them into a structured `{"error": message}` result. -/
def ToolRegistry.execute (r : ToolRegistry) (tool_name : String) (arguments : Json) :
    Except ToolErr Json :=
  match r.get tool_name with
  | none => .error (.notFound tool_name)
  | some tool =>
    match tool.execute_fn (normalizeArgs arguments) with
    | .ok result => .ok result
    | .error msg => .ok (.obj [("error", .str msg)])

/-! ## Streaming chunks and events (`chat_service.py`, `providers/`) -/

/-- A canonical provider-stream chunk (the dicts yielded by the adapters'
`stream`). -/
inductive Chunk where
  | text_delta (text : String)
  | tool_call (tool_call_id tool_name : String) (args : Json)
  | usage (prompt_tokens completion_tokens : Nat)
deriving Repr, DecidableEq

/-- A `StreamEvent` of the orchestrator.  `step_finish` carries the last step
usage when one was reported (`{}` otherwise); `stream_end` carries the
accumulated totals. -/
inductive StreamEvent where
  | stream_start (message_id : String)
  | text_delta (text : String)
  | tool_call_start (tool_call_id tool_name : String)
  | tool_input_delta (tool_call_id input_delta : String)
  | tool_input_ready (tool_call_id : String) (input : Json)
  | tool_output (tool_call_id : String) (output : Json)
  | step_start (step : Nat)
  | step_finish (step : Nat) (finish_reason : String) (usage : Option (Nat × Nat))
  | stream_end (finish_reason : String) (usage : Nat × Nat)
  | error (message : String)
deriving Repr, DecidableEq

/-! ## Middleware and the pipeline (`middleware/`) -/

/-- Errors a middleware hook can raise. -/
inductive MWErr where
  | contentBlocked (message : String)
  | failure (message : String)
deriving Repr, DecidableEq

/-- Request parameters (`params` dict): the request fields built by
`stream_message` plus the cache middleware's private scratch keys. -/
structure Params where
  messages : List ModelMessage
  model_id : String
  tools : Option (List Json)
  cacheHit : Option String := none
  cacheKey : Option String := none
deriving Repr, DecidableEq

/-- `GenerateResult` as `after_generate` consumers read it. -/
structure GenResult where
  content : String
  tool_calls : List (String × String × Json)
  finish_reason : String
  usage : Nat × Nat
deriving Repr, DecidableEq

/-- A middleware, hooks typed over a world `W` holding its shared mutable
state (the cache store; `Unit` for stateless middleware).  A raising hook is
`Except.error`; partial side effects of a raising hook are not modelled, since
the pipeline catches and continues from the previous state. -/
structure Middleware (W : Type) where
  name : String
  transform_params : W → Params → Except MWErr (W × Params) := fun w p => .ok (w, p)
  before_generate : W → Params → Except MWErr W := fun w _ => .ok w
  after_generate : W → Params → GenResult → Except MWErr W := fun w _ _ => .ok w
  wrap_stream : List Chunk → Params → List Chunk := fun s _ => s

/-- One `transform_params` pipeline iteration: the middleware failure is
caught and logged, and the params propagate unchanged. -/
def transformStep {W : Type} (mw : Middleware W) (wp : W × Params) : W × Params :=
  match mw.transform_params wp.1 wp.2 with
  | .ok r => r
  | .error _ => wp

/-- `MiddlewarePipeline.transform_params`: first to last, fault-isolated. -/
def pipelineTransform {W : Type} (mws : List (Middleware W)) (w : W) (p : Params) :
    W × Params :=
  mws.foldl (fun wp mw => transformStep mw wp) (w, p)

/-- One `before_generate` pipeline iteration. -/
def beforeStep {W : Type} (mw : Middleware W) (p : Params) (w : W) : W :=
  match mw.before_generate w p with
  | .ok w2 => w2
  | .error _ => w

/-- `MiddlewarePipeline.before_generate`: first to last, fault-isolated. -/
def pipelineBefore {W : Type} (mws : List (Middleware W)) (p : Params) (w : W) : W :=
  mws.foldl (fun w mw => beforeStep mw p w) w

/-- One `after_generate` pipeline iteration. -/
def afterStep {W : Type} (mw : Middleware W) (p : Params) (r : GenResult) (w : W) : W :=
  match mw.after_generate w p r with
  | .ok w2 => w2
  | .error _ => w

/-- `MiddlewarePipeline.after_generate`: last to first (reversed),
fault-isolated. -/
def pipelineAfter {W : Type} (mws : List (Middleware W)) (p : Params) (r : GenResult)
    (w : W) : W :=
  mws.reverse.foldl (fun w mw => afterStep mw p r w) w

/-- `MiddlewarePipeline.wrap_stream`: `wrapped = stream; for mw in
reversed(middleware): wrapped = mw.wrap_stream(wrapped, params)` — so the
first-registered middleware ends up outermost.  (The `try` around each wrap
call cannot fire for an async-generator middleware, because calling one only
constructs the generator, so it is not modelled.) -/
def pipelineWrap {W : Type} (mws : List (Middleware W)) (stream : List Chunk)
    (p : Params) : List Chunk :=
  mws.reverse.foldl (fun s mw => mw.wrap_stream s p) stream

/-! ## Guardrails middleware (`guardrails_middleware.py`)

Compiled regex patterns are modelled as matcher functions `String → Bool`
(`re.Pattern.search`); the three default blocked-input patterns are compiled
below into explicit scanners. -/

/-- Python `\s` (the ASCII range relevant to the default patterns). -/
def isPyWs (c : Char) : Bool :=
  c = ' ' || c = '\t' || c = '\n' || c = '\r' || c = '\x0b' || c = '\x0c'

/-- Case-insensitive literal match, returning the remainder. -/
def matchLit : List Char → List Char → Option (List Char)
  | [], cs => some cs
  | _ :: _, [] => none
  | l :: ls, c :: cs => if l.toLower = c.toLower then matchLit ls cs else none

/-- Drop a (possibly empty) whitespace run. -/
def dropPyWs : List Char → List Char
  | [] => []
  | c :: cs => if isPyWs c then dropPyWs cs else c :: cs

/-- Match `\s+` greedily (the following literals never start with whitespace,
so greediness loses no matches). -/
def wsPlus : List Char → Option (List Char)
  | [] => none
  | c :: cs => if isPyWs c then some (dropPyWs cs) else none

/-- The regex `ignore\s+(all\s+)?previous\s+instructions` at one position.
Committing to the optional `all\s+` group is safe: no input can both continue
with `all` plus whitespace and with `previous`. -/
def matchIgnoreAt (cs : List Char) : Bool :=
  (do
    let s1 ← matchLit "ignore".data cs
    let s2 ← wsPlus s1
    let s3 :=
      match (do
        let a ← matchLit "all".data s2
        wsPlus a) with
      | some r => r
      | none => s2
    let s4 ← matchLit "previous".data s3
    let s5 ← wsPlus s4
    let _ ← matchLit "instructions".data s5
    pure ()).isSome

/-- The regex `you\s+are\s+now\s+(a|an)\s+` at one position (for a yes/no
answer the alternation order is immaterial, so the longer branch is tried
first). -/
def matchYouAreNowAt (cs : List Char) : Bool :=
  (do
    let s1 ← matchLit "you".data cs
    let s2 ← wsPlus s1
    let s3 ← matchLit "are".data s2
    let s4 ← wsPlus s3
    let s5 ← matchLit "now".data s4
    let s6 ← wsPlus s5
    let _ ← (do
        let a ← matchLit "an".data s6
        wsPlus a) <|> (do
        let a ← matchLit "a".data s6
        wsPlus a)
    pure ()).isSome

/-- The regex `system\s*:\s*` at one position. -/
def matchSystemColonAt (cs : List Char) : Bool :=
  (do
    let s1 ← matchLit "system".data cs
    match dropPyWs s1 with
    | ':' :: _ => some ()
    | _ => none).isSome

/-- `re.search`: try every position. -/
def searchAny (p : List Char → Bool) : List Char → Bool
  | [] => p []
  | c :: cs => p (c :: cs) || searchAny p cs

/-- The compiled `BLOCKED_INPUT_PATTERNS` defaults. -/
def blocked_input_patterns : List (String → Bool) :=
  [fun s => searchAny matchIgnoreAt s.data,
   fun s => searchAny matchYouAreNowAt s.data,
   fun s => searchAny matchSystemColonAt s.data]

/-- `GuardrailsMiddleware._check_text` as a predicate: does any pattern match. -/
def check_text (patterns : List (String → Bool)) (text : String) : Bool :=
  patterns.any (fun p => p text)

/-- The transform hook: inspect the string content of every user-role message
(a missing content key reads as `""`, which is a string) and raise
`ContentBlockedError` on a match. -/
def guardrailsTransform (input_patterns : List (String → Bool)) (p : Params) :
    Except MWErr Params :=
  if p.messages.any (fun m =>
      m.role == "user" &&
        (match m.content with
          | .str t => check_text input_patterns t
          | .absent => check_text input_patterns ""
          | _ => false)) then
    .error (.contentBlocked "Content blocked by input guardrail")
  else .ok p

/-- The Python slice `accumulated[-50:]`. -/
def lastChars (n : Nat) (s : String) : String :=
  ⟨s.data.drop (s.data.length - n)⟩

/-- The guardrails stream wrapper: accumulate text deltas; once the buffer
exceeds 100 characters, check it — on a match, emit the filtered notice and
stop; otherwise retain the last 50 characters and pass the chunk through. -/
def guardrailsWrap (output_patterns : List (String → Bool)) :
    List Chunk → String → List Chunk
  | [], _ => []
  | chunk :: rest, accumulated =>
    match chunk with
    | .text_delta t =>
      let acc2 := accumulated ++ t
      if 100 < acc2.length then
        if check_text output_patterns acc2 then
          [.text_delta "\n\n[Content filtered by safety policy]"]
        else chunk :: guardrailsWrap output_patterns rest (lastChars 50 acc2)
      else chunk :: guardrailsWrap output_patterns rest acc2
    | .tool_call i n a => .tool_call i n a :: guardrailsWrap output_patterns rest accumulated
    | .usage p q => .usage p q :: guardrailsWrap output_patterns rest accumulated

/-- `GuardrailsMiddleware` over any world (it keeps no shared state). -/
def GuardrailsMW (W : Type) (input_patterns output_patterns : List (String → Bool)) :
    Middleware W :=
  { name := "guardrails"
    transform_params := fun w p => (guardrailsTransform input_patterns p).map (fun p2 => (w, p2))
    wrap_stream := fun s _ => guardrailsWrap output_patterns s "" }

/-- The middleware with its class defaults (`BLOCKED_OUTPUT_PATTERNS = []`). -/
def defaultGuardrailsMW (W : Type) : Middleware W :=
  GuardrailsMW W blocked_input_patterns []

/-! ## Cache middleware (`cache_middleware.py`)

The Django cache is the world: a key-value list carrying each entry's timeout
seconds.  The sixteen-hex-character SHA-256 digest of `_make_key` is modelled
as the serialized payload itself — deterministic, and injective rather than
merely collision-resistant. -/

def CacheStore := List (String × String × Nat)

def djangoCacheGet (store : CacheStore) (key : String) : Option String :=
  (store.find? (fun e => e.1 == key)).map (fun e => e.2.1)

def djangoCacheSet (store : CacheStore) (key value : String) (timeout : Nat) : CacheStore :=
  (store.filter (fun e => e.1 != key)) ++ [(key, value, timeout)]

/-- JSON encoding of a provider-call message, keys in sorted order as
`json.dumps(..., sort_keys=True)` renders them. -/
def modelMessageJson (m : ModelMessage) : Json :=
  .obj ((match m.content with
      | .absent => []
      | .null => [("content", Json.null)]
      | .str t => [("content", Json.str t)]
      | .blocks bs => [("content", Json.arr (bs.map (fun b =>
          match b with
          | .text t => Json.obj [("text", .str t), ("type", .str "text")]
          | .image_url u =>
            Json.obj [("image_url", .obj [("url", .str u)]), ("type", .str "image_url")])))]) ++
    [("role", Json.str m.role)] ++
    (match m.tool_call_id with
      | some i => [("tool_call_id", Json.str i)]
      | none => []) ++
    (match m.tool_calls with
      | some tcs => [("tool_calls", Json.arr (tcs.map (fun tc =>
          Json.obj [("function", .obj [("arguments", tc.arguments), ("name", .str tc.name)]),
                    ("id", .str tc.id), ("type", .str "function")])))]
      | none => []))

/-- `CacheMiddleware._make_key`. -/
def cacheMakeKey (p : Params) : String :=
  "chat_sdk:llm:" ++
    dumps (.obj [("messages", .arr (p.messages.map modelMessageJson)),
                 ("model", .str p.model_id)])

/-- Python truthiness of `params.get("tools")` (`None` and `[]` are falsy). -/
def toolsTruthy : Option (List Json) → Bool
  | some (_ :: _) => true
  | _ => false

/-- `CacheMiddleware`: skip entirely when tools are present; on a hit stash
`_cache_hit`, on a miss stash `_cache_key`; `after_generate` stores a
contentful, tool-call-free result under the stashed key with the 3600 s
timeout.  (`after_generate` also pops the scratch keys from the params dict;
params are per-call values here, so the pop has no observable effect.) -/
def CacheMW : Middleware CacheStore :=
  { name := "cache"
    transform_params := fun store p =>
      if toolsTruthy p.tools then .ok (store, p)
      else
        let key := cacheMakeKey p
        match djangoCacheGet store key with
        | some cached => .ok (store, { p with cacheHit := some cached })
        | none => .ok (store, { p with cacheKey := some key })
    after_generate := fun store p r =>
      match p.cacheKey with
      | some key =>
        if r.content ≠ "" ∧ r.tool_calls = [] then
          .ok (djangoCacheSet store key r.content 3600)
        else .ok store
      | none => .ok store }

/-! ## OpenAI stream adapter (`openai_provider.py`, `stream`) -/

/-- `delta.tool_calls[k].function`. -/
structure OAIFunctionDelta where
  name : Option String := none
  arguments : Option String := none
deriving Repr, DecidableEq

/-- One incremental tool-call delta, keyed by `index`. -/
structure OAIToolCallDelta where
  index : Nat
  id : Option String := none
  function : Option OAIFunctionDelta := none
deriving Repr, DecidableEq

structure OAIDelta where
  content : Option String := none
  tool_calls : Option (List OAIToolCallDelta) := none
deriving Repr, DecidableEq

structure OAIChoice where
  delta : OAIDelta
  finish_reason : Option String := none
deriving Repr, DecidableEq

structure OAIChunk where
  choices : List OAIChoice
  usage : Option (Nat × Nat) := none
deriving Repr, DecidableEq

/-- Python truthiness of an optional string (`None` and `""` are falsy). -/
def optStrTruthy : Option String → Bool
  | some s => s ≠ ""
  | none => false

/-- One in-flight buffered call (`current_tool_calls[idx]`). -/
structure OAIAcc where
  tool_call_id : String
  tool_name : String
  args_str : String
deriving Repr, DecidableEq

/-- Insertion-ordered dict lookup. -/
def oaiFind (m : List (Nat × OAIAcc)) (i : Nat) : Option OAIAcc :=
  (m.find? (fun e => e.1 == i)).map (fun e => e.2)

/-- In-place update of the entry at key `i`. -/
def oaiUpdate (m : List (Nat × OAIAcc)) (i : Nat) (f : OAIAcc → OAIAcc) :
    List (Nat × OAIAcc) :=
  m.map (fun e => if e.1 == i then (e.1, f e.2) else e)

/-- Buffer one tool-call delta (initialize the slot, then apply the truthy
`id` / `function.name` / `function.arguments` updates). -/
def oaiApplyToolDelta (m : List (Nat × OAIAcc)) (tc : OAIToolCallDelta) :
    List (Nat × OAIAcc) :=
  let m1 :=
    if (oaiFind m tc.index).isNone then
      m ++ [(tc.index, { tool_call_id := tc.id.getD "", tool_name := "", args_str := "" })]
    else m
  let m2 :=
    if optStrTruthy tc.id then
      oaiUpdate m1 tc.index (fun a => { a with tool_call_id := tc.id.getD "" })
    else m1
  match tc.function with
  | none => m2
  | some f =>
    let m3 :=
      if optStrTruthy f.name then
        oaiUpdate m2 tc.index (fun a => { a with tool_name := f.name.getD "" })
      else m2
    if optStrTruthy f.arguments then
      oaiUpdate m3 tc.index (fun a => { a with args_str := a.args_str ++ f.arguments.getD "" })
    else m3

/-- The completed `tool_call` chunks emitted at `finish_reason == "tool_calls"`:
one per buffered in-flight call, arguments parsed as JSON (`{}` on failure). -/
def oaiEmitToolCalls (m : List (Nat × OAIAcc)) : List Chunk :=
  m.map (fun e => .tool_call e.2.tool_call_id e.2.tool_name (parseToolArgs e.2.args_str))

/-- One loop iteration of `OpenAIProvider.stream` over a vendor chunk:
usage-only chunks yield a usage event; otherwise text is yielded, tool-call
deltas are buffered, and a truthy `finish_reason = "tool_calls"` flushes and
clears the buffer. -/
def openaiStep (m : List (Nat × OAIAcc)) (chunk : OAIChunk) :
    List (Nat × OAIAcc) × List Chunk :=
  match chunk.choices with
  | [] =>
    match chunk.usage with
    | some u => (m, [.usage u.1 u.2])
    | none => (m, [])
  | choice :: _ =>
    let textEvents :=
      if optStrTruthy choice.delta.content then [Chunk.text_delta (choice.delta.content.getD "")]
      else []
    let m2 :=
      match choice.delta.tool_calls with
      | some tcs => if tcs.isEmpty then m else tcs.foldl oaiApplyToolDelta m
      | none => m
    match choice.finish_reason with
    | some fr =>
      if fr ≠ "" then
        if fr = "tool_calls" then ([], textEvents ++ oaiEmitToolCalls m2)
        else (m2, textEvents)
      else (m2, textEvents)
    | none => (m2, textEvents)

/-- The whole adapter stream as a fold over the vendor chunks. -/
def openaiStream (chunks : List OAIChunk) : List Chunk :=
  (chunks.foldl (fun (st : List (Nat × OAIAcc) × List Chunk) ch =>
    let r := openaiStep st.1 ch
    (r.1, st.2 ++ r.2)) ([], [])).2

/-! ## Anthropic stream adapter (`anthropic_provider.py`, `stream`) -/

inductive AnthBlock where
  | text
  | tool_use (id name : String)
  | other
deriving Repr, DecidableEq

inductive AnthDelta where
  | text_delta (text : String)
  | input_json_delta (partial_json : String)
  | other
deriving Repr, DecidableEq

inductive AnthEvent where
  | content_block_start (content_block : AnthBlock)
  | content_block_delta (delta : AnthDelta)
  | content_block_stop
  | message_stop
  | other
deriving Repr, DecidableEq

/-- The three block-reconstruction variables of the Anthropic stream loop. -/
structure AnthState where
  current_tool_id : Option String := none
  current_tool_name : Option String := none
  current_tool_input : String := ""
deriving Repr, DecidableEq

/-- One loop iteration of `AnthropicProvider.stream`: a `tool_use` block start
opens a buffer, `input_json_delta` fragments accumulate, and the block's stop
event emits the single completed `tool_call` (when a truthy tool id is open)
with the accumulated input parsed as JSON. -/
def anthropicStep (st : AnthState) (ev : AnthEvent) : AnthState × List Chunk :=
  match ev with
  | .content_block_start b =>
    match b with
    | .tool_use i n =>
      ({ current_tool_id := some i, current_tool_name := some n, current_tool_input := "" }, [])
    | _ => (st, [])
  | .content_block_delta d =>
    match d with
    | .text_delta t => (st, [.text_delta t])
    | .input_json_delta pj => ({ st with current_tool_input := st.current_tool_input ++ pj }, [])
    | .other => (st, [])
  | .content_block_stop =>
    if optStrTruthy st.current_tool_id then
      let args :=
        if st.current_tool_input ≠ "" then parseToolArgs st.current_tool_input else .obj []
      ({}, [.tool_call (st.current_tool_id.getD "") (st.current_tool_name.getD "") args])
    else (st, [])
  | .message_stop => (st, [])
  | .other => (st, [])

/-- The whole adapter stream: fold over the vendor events, then the single
final usage event from `get_final_message`. -/
def anthropicStream (events : List AnthEvent) (finalUsage : Nat × Nat) : List Chunk :=
  (events.foldl (fun (st : AnthState × List Chunk) ev =>
    let r := anthropicStep st.1 ev
    (r.1, st.2 ++ r.2)) ({}, [])).2 ++ [.usage finalUsage.1 finalUsage.2]

/-! ## The agent loop (`chat_service.py`)

`ChatService.stream_message` as a function from the turn's inputs to the
ordered event sequence plus the observable side channels (provider calls, tool
executions, the message-list rebuild snapshots, the persisted parts, the
middleware world).  The provider is a function from the three streamed request
fields to its chunk list. -/

def ProviderFn := List ModelMessage → String → Option (List Json) → List Chunk

/-- Events relayed for one canonical chunk inside the step loop. -/
def chunkEvents (c : Chunk) : List StreamEvent :=
  match c with
  | .text_delta t => [.text_delta t]
  | .tool_call i n args => [.tool_call_start i n, .tool_input_ready i args]
  | .usage _ _ => []

/-- `step_text`: concatenated text of the step's deltas. -/
def stepText (chunks : List Chunk) : String :=
  chunks.foldl (fun acc c =>
    match c with
    | .text_delta t => acc ++ t
    | _ => acc) ""

/-- The tool-call chunks collected by the step, in order. -/
def stepToolCalls (chunks : List Chunk) : List (String × String × Json) :=
  chunks.filterMap (fun c =>
    match c with
    | .tool_call i n a => some (i, n, a)
    | _ => none)

/-- `step_usage`: each usage chunk overwrites it; `none` models `{}`. -/
def stepUsage (chunks : List Chunk) : Option (Nat × Nat) :=
  chunks.foldl (fun acc c =>
    match c with
    | .usage p q => some (p, q)
    | _ => acc) none

/-- `total_usage` accumulation: every usage chunk adds into the totals. -/
def usageSum (chunks : List Chunk) (tot : Nat × Nat) : Nat × Nat :=
  chunks.foldl (fun t c =>
    match c with
    | .usage p q => (t.1 + p, t.2 + q)
    | _ => t) tot

/-- What dispatching the step's tool calls produced: events yielded, parts
appended, registry invocations, and the raised exception when `execute` threw
before completing the list. -/
structure DispatchOut where
  events : List StreamEvent
  parts : List Part
  calls : List (String × Json)
  failed : Option String
deriving Repr

/-- Dispatch loop: per call append the `tool_call` part, execute, yield
`tool_output`, append the matching `tool_result` part.  A raised `KeyError`
(unregistered name) aborts mid-list: the call part is already appended, no
result part follows, later calls never run. -/
def dispatchTools (reg : ToolRegistry) : List (String × String × Json) → DispatchOut
  | [] => { events := [], parts := [], calls := [], failed := none }
  | (i, n, a) :: rest =>
    match reg.execute n a with
    | .error e =>
      { events := [], parts := [Part.tool_call i n a], calls := [(n, a)],
        failed := some (toolErrMsg e) }
    | .ok result =>
      let tail := dispatchTools reg rest
      { events := .tool_output i result :: tail.events
        parts := Part.tool_call i n a :: Part.tool_result i n result :: tail.parts
        calls := (n, a) :: tail.calls
        failed := tail.failed }

/-- `_get_model_messages`: full ordered history through the converter, the
effective system prompt (override or the conversation's, a falsy empty string
meaning none) prepended, the accumulated parts of the current turn appended as
one assistant-role pseudo message. -/
def build_model_messages (history : List StoredMsg) (sysPrompt : String)
    (extra_parts : List Part) : List ModelMessage :=
  let base := to_model_messages history
  let base2 :=
    if sysPrompt ≠ "" then
      { role := "system", content := MsgContent.str sysPrompt } :: base
    else base
  if extra_parts.isEmpty then base2
  else
    base2 ++ to_model_messages [{ role := "assistant", parts := extra_parts, attachments := [] }]

/-- Observable outcome of the `while step < max_steps` loop. -/
structure LoopOut where
  events : List StreamEvent
  parts : List Part
  providerCalls : Nat
  execCalls : List (String × Json)
  rebuilds : List (List Part)
  usage : Nat × Nat
  failed : Option String
deriving Repr

/-- The step loop.  `fuel` is the remaining step budget `maxSteps - step`; the
dispatch guard `step < maxSteps - 1` is the source's tool-budget boundary. -/
def agentSteps {W : Type} (mws : List (Middleware W)) (prov : ProviderFn)
    (reg : ToolRegistry) (history : List StoredMsg) (sysPrompt : String)
    (maxSteps : Nat) :
    Nat → Nat → Params → List Part → Nat × Nat → LoopOut
  | 0, _, _, accParts, tot =>
    { events := [], parts := accParts, providerCalls := 0, execCalls := [],
      rebuilds := [], usage := tot, failed := none }
  | fuel + 1, step, params, accParts, tot =>
    let raw := prov params.messages params.model_id params.tools
    let chunks := pipelineWrap mws raw params
    let sEvents := StreamEvent.step_start step :: chunks.flatMap chunkEvents
    let text := stepText chunks
    let tcs := stepToolCalls chunks
    let su := stepUsage chunks
    let tot2 := usageSum chunks tot
    let acc2 := accParts ++ (if text ≠ "" then [Part.text text] else [])
    if tcs ≠ [] ∧ step < maxSteps - 1 then
      let d := dispatchTools reg tcs
      match d.failed with
      | some msg =>
        { events := sEvents ++ d.events, parts := acc2 ++ d.parts, providerCalls := 1,
          execCalls := d.calls, rebuilds := [], usage := tot2, failed := some msg }
      | none =>
        let acc3 := acc2 ++ d.parts
        let params2 := { params with messages := build_model_messages history sysPrompt acc3 }
        let tailOut :=
          agentSteps mws prov reg history sysPrompt maxSteps fuel (step + 1) params2 acc3 tot2
        { events := sEvents ++ d.events ++ StreamEvent.step_finish step "tool_calls" su
            :: tailOut.events
          parts := tailOut.parts
          providerCalls := 1 + tailOut.providerCalls
          execCalls := d.calls ++ tailOut.execCalls
          rebuilds := acc3 :: tailOut.rebuilds
          usage := tailOut.usage
          failed := tailOut.failed }
    else
      { events := sEvents ++ [StreamEvent.step_finish step "stop" su], parts := acc2,
        providerCalls := 1, execCalls := [], rebuilds := [], usage := tot2, failed := none }

/-- A finished turn. -/
structure TurnResult (W : Type) where
  events : List StreamEvent
  parts : List Part
  providerCalls : Nat
  execCalls : List (String × Json)
  rebuilds : List (List Part)
  saved : Option (List Part)
  world : W

/-- `ChatService.stream_message`: persist the user message, emit
`stream_start`, build the request and run it through `transform_params`, run
the agent loop, then either persist the assistant parts and emit `stream_end`
or surface the caught exception as one terminal `error` event. -/
def stream_message {W : Type} (mws : List (Middleware W)) (w : W) (prov : ProviderFn)
    (reg : ToolRegistry) (model_id : String) (history : List StoredMsg)
    (userText : String) (sysPrompt : String) (maxSteps : Nat) (messageId : String) :
    TurnResult W :=
  let history2 := history ++ [{ role := "user", parts := [Part.text userText],
                                attachments := ([] : List Attachment) }]
  let params0 : Params :=
    { messages := build_model_messages history2 sysPrompt []
      model_id := model_id
      tools := if reg.has_tools then some reg.to_openai_tools else none }
  let wp := pipelineTransform mws w params0
  let out := agentSteps mws prov reg history2 sysPrompt maxSteps maxSteps 0 wp.2 [] (0, 0)
  match out.failed with
  | some msg =>
    { events := .stream_start messageId :: (out.events ++ [.error msg])
      parts := out.parts, providerCalls := out.providerCalls, execCalls := out.execCalls
      rebuilds := out.rebuilds, saved := none, world := wp.1 }
  | none =>
    { events := .stream_start messageId :: (out.events ++ [.stream_end "stop" out.usage])
      parts := out.parts, providerCalls := out.providerCalls, execCalls := out.execCalls
      rebuilds := out.rebuilds, saved := some out.parts, world := wp.1 }

/-- First `error` event's message, if any. -/
def firstError (evs : List StreamEvent) : Option String :=
  (evs.filterMap (fun e =>
    match e with
    | .error m => some m
    | _ => none)).head?

/-- `ChatService.generate_message`: drain `stream_message`, re-raising an
`error` event as `RuntimeError`, otherwise return the persisted turn. -/
def generate_message {W : Type} (mws : List (Middleware W)) (w : W) (prov : ProviderFn)
    (reg : ToolRegistry) (model_id : String) (history : List StoredMsg)
    (userText : String) (sysPrompt : String) (maxSteps : Nat) (messageId : String) :
    Except String (TurnResult W) :=
  let r := stream_message mws w prov reg model_id history userText sysPrompt maxSteps messageId
  match firstError r.events with
  | some m => .error m
  | none => .ok r

/-! ## Helper predicates for the claims -/

/-- Length of all text carried by `text_delta` chunks. -/
def totalTextLen : List Chunk → Nat
  | [] => 0
  | .text_delta t :: rest => t.length + totalTextLen rest
  | .tool_call _ _ _ :: rest => totalTextLen rest
  | .usage _ _ :: rest => totalTextLen rest

/-- Keep only the `tool_call` chunks. -/
def toolCallChunks (cs : List Chunk) : List Chunk :=
  cs.filter (fun c =>
    match c with
    | .tool_call _ _ _ => true
    | _ => false)

/-- Keep only the `step_start` events. -/
def stepStartEvents (evs : List StreamEvent) : List StreamEvent :=
  evs.filter (fun e =>
    match e with
    | .step_start _ => true
    | _ => false)

/-! ## C4 — pipeline ordering -/

/-- C4: for a pipeline built from `[A, B, C]`, `transform_params` and
`before_generate` invoke A, B, C in that order; `after_generate` invokes
C, B, A; and `wrap_stream` nests so that A is the outermost wrapper — the
events flow raw stream → C → B → A → caller, so A filters or replaces every
event before it reaches the caller. -/
theorem c4_pipeline_ordering {W : Type} (A B C : Middleware W) (w : W) (p : Params)
    (r : GenResult) (s : List Chunk) :
    pipelineTransform [A, B, C] w p
        = transformStep C (transformStep B (transformStep A (w, p)))
    ∧ pipelineBefore [A, B, C] p w = beforeStep C p (beforeStep B p (beforeStep A p w))
    ∧ pipelineAfter [A, B, C] p r w = afterStep A p r (afterStep B p r (afterStep C p r w))
    ∧ pipelineWrap [A, B, C] s p
        = A.wrap_stream (B.wrap_stream (C.wrap_stream s p) p) p :=
  ⟨rfl, rfl, rfl, rfl⟩

/-! ## C8 — a raising tool body is contained -/

/-- C8: when a registered tool's executor raises, `ToolRegistry.execute`
returns the structured result `{"error": message}` instead of propagating, so
a failing tool body never raises out of `execute`. -/
theorem c8_tool_failure_contained (r : ToolRegistry) (name : String) (args : Json)
    (tool : ToolDefinition) (msg : String)
    (hget : r.get name = some tool)
    (hrun : tool.execute_fn (normalizeArgs args) = .error msg) :
    r.execute name args = .ok (.obj [("error", .str msg)]) := by
  unfold ToolRegistry.execute
  rw [hget]
  simp only [hrun]

theorem c8_witness :
    let boom : ToolDefinition :=
      { name := "boom", description := "always raises", parameters_schema := .obj []
        execute_fn := fun _ => .error "division by zero" }
    let reg : ToolRegistry := ToolRegistry.register ⟨[]⟩ boom
    reg.get "boom" = some boom
    ∧ reg.execute "boom" (.obj [("x", .num 1)])
        = .ok (.obj [("error", .str "division by zero")]) := by
  exact ⟨rfl, c8_tool_failure_contained _ "boom" _ _ "division by zero" rfl rfl⟩

/-! ## C10 — short streams pass the guardrails wrapper untouched -/

theorem guardrailsWrap_short (pats : List (String → Bool)) :
    ∀ (chunks : List Chunk) (acc : String),
      acc.length + totalTextLen chunks ≤ 100 →
      guardrailsWrap pats chunks acc = chunks
  | [], _, _ => rfl
  | .text_delta t :: rest, acc, h => by
    simp only [totalTextLen] at h
    have hlen : (acc ++ t).length = acc.length + t.length := String.length_append acc t
    have hnot : ¬ 100 < (acc ++ t).length := by omega
    rw [guardrailsWrap, if_neg hnot,
      guardrailsWrap_short pats rest (acc ++ t) (by omega)]
  | .tool_call i n a :: rest, acc, h => by
    simp only [totalTextLen] at h
    rw [guardrailsWrap, guardrailsWrap_short pats rest acc (by omega)]
  | .usage p q :: rest, acc, h => by
    simp only [totalTextLen] at h
    rw [guardrailsWrap, guardrailsWrap_short pats rest acc (by omega)]

/-- C10: when the accumulated `text_delta` text of a wrapped stream never
exceeds 100 characters in total, the guardrails stream wrapper yields every
upstream chunk unchanged — even when the accumulated text matches a configured
blocked-output pattern, because the output check only runs once the buffer
exceeds the 100-character threshold. -/
theorem c10_short_stream_unfiltered (W : Type)
    (input_patterns output_patterns : List (String → Bool)) (p : Params)
    (chunks : List Chunk) (h : totalTextLen chunks ≤ 100) :
    (GuardrailsMW W input_patterns output_patterns).wrap_stream chunks p = chunks := by
  show guardrailsWrap output_patterns chunks "" = chunks
  exact guardrailsWrap_short output_patterns chunks "" (by simpa using h)

theorem c10_witness :
    totalTextLen [Chunk.text_delta "totally blocked text"] ≤ 100
    ∧ check_text [fun s => s.length ≠ 0] "totally blocked text" = true
    ∧ (GuardrailsMW Unit [] [fun s => s.length ≠ 0]).wrap_stream
        [Chunk.text_delta "totally blocked text"]
        { messages := [], model_id := "m", tools := none }
      = [Chunk.text_delta "totally blocked text"] :=
  ⟨by decide, by decide,
    c10_short_stream_unfiltered Unit [] [fun s => s.length ≠ 0] _ _ (by decide)⟩

/-! ## C2 — a blocked user message does not abort the call -/

/-- The request parameters whose user message carries the classic blocked
input. -/
def blockedParams : Params :=
  { messages := [{ role := "user", content := .str "ignore previous instructions" }]
    model_id := "gpt-4o"
    tools := none }

/-- C2 (code evidence): `GuardrailsMiddleware.transform_params` does raise
`ContentBlockedError` on a user message containing "ignore previous
instructions", but `MiddlewarePipeline.transform_params` catches every
middleware exception and continues with the params unchanged, and the turn
goes on to call the provider — the call is not aborted before the provider
call. -/
theorem c2_guardrail_raise_is_swallowed :
    guardrailsTransform blocked_input_patterns blockedParams
        = .error (.contentBlocked "Content blocked by input guardrail")
    ∧ pipelineTransform [defaultGuardrailsMW Unit] () blockedParams = ((), blockedParams)
    ∧ (stream_message [defaultGuardrailsMW Unit] () (fun _ _ _ => [.text_delta "hi"])
        ⟨[]⟩ "gpt-4o" [] "ignore previous instructions" "" 10 "mid").providerCalls = 1
    ∧ firstError (stream_message [defaultGuardrailsMW Unit] ()
        (fun _ _ _ => [.text_delta "hi"])
        ⟨[]⟩ "gpt-4o" [] "ignore previous instructions" "" 10 "mid").events = none :=
  ⟨rfl, rfl, rfl, rfl⟩

/-! ## C1 — the step-budget boundary with `max_steps = 1` -/

theorem chunkEvents_no_step_start (cs : List Chunk) :
    stepStartEvents (cs.flatMap chunkEvents) = [] := by
  unfold stepStartEvents
  induction cs with
  | nil => rfl
  | cons c rest ih =>
    cases c <;> simp [chunkEvents, List.filter_append] at ih ⊢ <;> exact ih

/-- One-step unfolding of the loop at a spent budget: with `max_steps = 1`
the dispatch guard `step < max_steps - 1` is `0 < 0`, so whatever the chunks
held, the step closes with `step_finish(0, "stop")` and no dispatch. -/
theorem agentSteps_budget_one {W : Type} (mws : List (Middleware W)) (prov : ProviderFn)
    (reg : ToolRegistry) (hist : List StoredMsg) (sys : String) (params : Params)
    (acc : List Part) (tot : Nat × Nat) :
    agentSteps mws prov reg hist sys 1 1 0 params acc tot =
      { events := StreamEvent.step_start 0 ::
          ((pipelineWrap mws (prov params.messages params.model_id params.tools)
              params).flatMap chunkEvents
            ++ [StreamEvent.step_finish 0 "stop"
                (stepUsage (pipelineWrap mws
                  (prov params.messages params.model_id params.tools) params))])
        parts := acc ++
          (if stepText (pipelineWrap mws
              (prov params.messages params.model_id params.tools) params) ≠ "" then
            [Part.text (stepText (pipelineWrap mws
              (prov params.messages params.model_id params.tools) params))]
          else [])
        providerCalls := 1
        execCalls := []
        rebuilds := []
        usage := usageSum (pipelineWrap mws
          (prov params.messages params.model_id params.tools) params) tot
        failed := none } := by
  rw [agentSteps]
  simp

/-- C1: with `max_steps = 1` and a provider whose stream always yields a
tool-call chunk, `stream_message` executes exactly one step (one provider
call, one `step_start`, for step 0), never invokes `ToolRegistry.execute`
(tool dispatch is guarded by `step < max_steps - 1`), and emits
`step_finish(0, "stop")` followed by `stream_end`. -/
theorem c1_step_budget_boundary {W : Type} (mws : List (Middleware W)) (w : W)
    (prov : ProviderFn) (reg : ToolRegistry) (model : String) (hist : List StoredMsg)
    (userText sys mid : String)
    (hprov : ∀ msgs m t, ∃ c ∈ prov msgs m t, ∃ i n a, c = Chunk.tool_call i n a) :
    (stream_message mws w prov reg model hist userText sys 1 mid).providerCalls = 1
    ∧ (stream_message mws w prov reg model hist userText sys 1 mid).execCalls = []
    ∧ stepStartEvents (stream_message mws w prov reg model hist userText sys 1 mid).events
        = [.step_start 0]
    ∧ ∃ pre su tu, (stream_message mws w prov reg model hist userText sys 1 mid).events
        = pre ++ [.step_finish 0 "stop" su, .stream_end "stop" tu] := by
  clear hprov
  simp only [stream_message]
  set params := (pipelineTransform mws w
    { messages := build_model_messages
        (hist ++ [{ role := "user", parts := [Part.text userText], attachments := [] }]) sys []
      model_id := model
      tools := if reg.has_tools = true then some reg.to_openai_tools else none }).2
  rw [agentSteps_budget_one]
  set chunks := pipelineWrap mws (prov params.messages params.model_id params.tools) params
  refine ⟨rfl, rfl, ?_, ?_⟩
  · have h : ∀ cs : List Chunk,
        (cs.flatMap chunkEvents).filter (fun e =>
          match e with
          | .step_start _ => true
          | _ => false) = [] := fun cs => chunkEvents_no_step_start cs
    simp [stepStartEvents, List.filter_append, h]
  · refine ⟨.stream_start mid :: .step_start 0 :: chunks.flatMap chunkEvents,
      stepUsage chunks, usageSum chunks (0, 0), ?_⟩
    simp

/-- A provider that always answers with one tool-call chunk. -/
def alwaysToolProv : ProviderFn :=
  fun _ _ _ => [Chunk.tool_call "c1" "get_weather" (Json.obj [("city", Json.str "SF")])]

theorem c1_witness :
    (∀ msgs m t, ∃ c ∈ alwaysToolProv msgs m t, ∃ i n a, c = Chunk.tool_call i n a)
    ∧ ((stream_message ([] : List (Middleware Unit)) () alwaysToolProv ⟨[]⟩
          "m" [] "hi" "" 1 "mid").providerCalls = 1
      ∧ (stream_message ([] : List (Middleware Unit)) () alwaysToolProv ⟨[]⟩
          "m" [] "hi" "" 1 "mid").execCalls = []
      ∧ stepStartEvents (stream_message ([] : List (Middleware Unit)) () alwaysToolProv ⟨[]⟩
          "m" [] "hi" "" 1 "mid").events = [.step_start 0]
      ∧ ∃ pre su tu, (stream_message ([] : List (Middleware Unit)) () alwaysToolProv ⟨[]⟩
          "m" [] "hi" "" 1 "mid").events
            = pre ++ [.step_finish 0 "stop" su, .stream_end "stop" tu]) :=
  have hp : ∀ msgs m t, ∃ c ∈ alwaysToolProv msgs m t, ∃ i n a, c = Chunk.tool_call i n a :=
    fun _ _ _ =>
      ⟨Chunk.tool_call "c1" "get_weather" (Json.obj [("city", Json.str "SF")]),
        List.mem_singleton.mpr rfl, "c1", "get_weather", Json.obj [("city", Json.str "SF")], rfl⟩
  ⟨hp, c1_step_budget_boundary [] () alwaysToolProv ⟨[]⟩ "m" [] "hi" "" "mid" hp⟩

/-! ## C3 — an unregistered tool name aborts the turn -/

/-- A turn in which the model requests a tool that is not registered. -/
def c3run : TurnResult Unit :=
  stream_message ([] : List (Middleware Unit)) ()
    (fun _ _ _ => [.tool_call "c1" "missing_tool" (.obj [])]) ⟨[]⟩ "m" [] "hi" "" 10 "mid"

/-- C3 counterexample: with an unregistered tool name the turn does NOT get a
structured tool-result error and does NOT continue — `execute` raises
(`KeyError`), the loop aborts, the events end in one terminal `error`, with no
`tool_output` and no `stream_end`, and no assistant message is persisted. -/
theorem c3_counterexample :
    (⟨[]⟩ : ToolRegistry).execute "missing_tool" (.obj [])
        = .error (.notFound "missing_tool")
    ∧ c3run.events = [.stream_start "mid", .step_start 0,
        .tool_call_start "c1" "missing_tool", .tool_input_ready "c1" (.obj []),
        .error "Tool missing_tool not found in registry"]
    ∧ (c3run.events.all (fun e =>
        match e with
        | .tool_output _ _ => false
        | .stream_end _ _ => false
        | _ => true)) = true
    ∧ c3run.saved = none :=
  ⟨rfl, rfl, rfl, rfl⟩

/-- C3 as amended: a tool call whose name is not registered makes
`ToolRegistry.execute` raise a not-found error (`KeyError`); the error
propagates out of the dispatch loop and the turn ABORTS with a single terminal
`error` event — no structured tool-result is produced, no `stream_end` follows,
and nothing is persisted. -/
theorem c3_amended (r : ToolRegistry) (name : String) (args : Json) (id : String)
    (model : String) (hist : List StoredMsg) (userText sys mid : String) (maxSteps : Nat)
    (hget : r.get name = none) (hms : 2 ≤ maxSteps) :
    r.execute name args = .error (.notFound name)
    ∧ stream_message ([] : List (Middleware Unit)) ()
        (fun _ _ _ => [.tool_call id name args]) r model hist userText sys maxSteps mid
      = { events := [.stream_start mid, .step_start 0, .tool_call_start id name,
            .tool_input_ready id args, .error (toolErrMsg (.notFound name))]
          parts := [Part.tool_call id name args]
          providerCalls := 1
          execCalls := [(name, args)]
          rebuilds := []
          saved := none
          world := () } := by
  have hexec : r.execute name args = .error (.notFound name) := by
    unfold ToolRegistry.execute
    rw [hget]
  obtain ⟨k, rfl⟩ : ∃ k, maxSteps = k + 2 := ⟨maxSteps - 2, by omega⟩
  refine ⟨hexec, ?_⟩
  have hlt : 0 < (k + 2) - 1 := by omega
  simp only [stream_message]
  rw [show (k + 2 : Nat) = (k + 1) + 1 from rfl, agentSteps]
  simp [pipelineWrap, pipelineTransform, stepToolCalls, stepText, stepUsage, usageSum,
    chunkEvents, dispatchTools, hexec, hlt]

theorem c3_amended_witness :
    (⟨[]⟩ : ToolRegistry).get "missing_tool" = none
    ∧ ((⟨[]⟩ : ToolRegistry).execute "missing_tool" (.obj [])
        = .error (.notFound "missing_tool")
      ∧ stream_message ([] : List (Middleware Unit)) ()
          (fun _ _ _ => [.tool_call "c1" "missing_tool" (.obj [])]) ⟨[]⟩
          "m" [] "hi" "" 2 "mid"
        = { events := [.stream_start "mid", .step_start 0,
              .tool_call_start "c1" "missing_tool", .tool_input_ready "c1" (.obj []),
              .error (toolErrMsg (.notFound "missing_tool"))]
            parts := [Part.tool_call "c1" "missing_tool" (.obj [])]
            providerCalls := 1
            execCalls := [("missing_tool", .obj [])]
            rebuilds := []
            saved := none
            world := () }) :=
  ⟨rfl, c3_amended ⟨[]⟩ "missing_tool" (.obj []) "c1" "m" [] "hi" "" "mid" 2 rfl
    (by decide)⟩

/-! ## C9 — every `tool_call` part is followed by its `tool_result` -/

/-- Balance property: wherever a `tool_call` part occurs, a `tool_result`
part with the same `tool_call_id` occurs later in the list. -/
def partsBalanced (ps : List Part) : Prop :=
  ∀ l1 i n a l2, ps = l1 ++ Part.tool_call i n a :: l2 →
    ∃ n2 r, Part.tool_result i n2 r ∈ l2

theorem partsBalanced_nil : partsBalanced [] := by
  intro l1 i n a l2 h
  exact absurd h (by simp)

theorem partsBalanced_tail {p : Part} {l : List Part} (h : partsBalanced (p :: l)) :
    partsBalanced l := by
  intro l1 i n a l2 heq
  exact h (p :: l1) i n a l2 (by simp [heq])

theorem partsBalanced_append {l m : List Part} (hl : partsBalanced l)
    (hm : partsBalanced m) : partsBalanced (l ++ m) := by
  induction l with
  | nil => simpa using hm
  | cons p l ih =>
    intro l1 i n a l2 heq
    cases l1 with
    | nil =>
      simp only [List.nil_append, List.cons_append, List.cons.injEq] at heq
      obtain ⟨rfl, heq2⟩ := heq
      obtain ⟨n2, r, hmem⟩ := hl [] i n a l (by simp)
      exact ⟨n2, r, heq2 ▸ List.mem_append_left m hmem⟩
    | cons q l1t =>
      simp only [List.cons_append, List.cons.injEq] at heq
      exact ih (partsBalanced_tail hl) l1t i n a l2 heq.2

theorem partsBalanced_single_text (t : String) : partsBalanced [Part.text t] := by
  intro l1 i n a l2 heq
  rcases l1 with _ | ⟨q, l1t⟩
  · simp at heq
  · simp only [List.cons_append, List.cons.injEq] at heq
    exact absurd heq.2 (by simp)

theorem partsBalanced_pair {i n n2 : String} {a r : Json} {rest : List Part}
    (h : partsBalanced rest) :
    partsBalanced (Part.tool_call i n a :: Part.tool_result i n2 r :: rest) := by
  intro l1 i2 m b l2 heq
  rcases l1 with _ | ⟨q1, l1t⟩
  · simp only [List.nil_append, List.cons.injEq] at heq
    obtain ⟨hc, heq2⟩ := heq
    cases hc
    exact ⟨n2, r, heq2 ▸ List.mem_cons_self _ _⟩
  · rcases l1t with _ | ⟨q2, l1tt⟩
    · simp only [List.cons_append, List.nil_append, List.cons.injEq] at heq
      exact absurd heq.2.1 (by simp)
    · simp only [List.cons_append, List.cons.injEq] at heq
      exact h l1tt i2 m b l2 heq.2.2

theorem dispatchTools_balanced (reg : ToolRegistry) :
    ∀ tcs : List (String × String × Json),
      (dispatchTools reg tcs).failed = none → partsBalanced (dispatchTools reg tcs).parts
  | [], _ => partsBalanced_nil
  | (i, n, a) :: rest, h => by
    rw [dispatchTools] at h ⊢
    cases hex : reg.execute n a with
    | error e =>
      rw [hex] at h
      simp at h
    | ok result =>
      rw [hex] at h
      simp only [] at h ⊢
      exact partsBalanced_pair (dispatchTools_balanced reg rest h)

theorem textPartOpt_balanced (text : String) :
    partsBalanced (if text ≠ "" then [Part.text text] else []) := by
  split
  · exact partsBalanced_single_text text
  · exact partsBalanced_nil

theorem agentSteps_rebuilds_balanced {W : Type} (mws : List (Middleware W))
    (prov : ProviderFn) (reg : ToolRegistry) (hist : List StoredMsg) (sys : String)
    (maxSteps : Nat) :
    ∀ (fuel step : Nat) (params : Params) (accParts : List Part) (tot : Nat × Nat),
      partsBalanced accParts →
      ∀ s ∈ (agentSteps mws prov reg hist sys maxSteps fuel step params accParts
        tot).rebuilds, partsBalanced s := by
  intro fuel
  induction fuel with
  | zero =>
    intro step params accParts tot _ s hs
    rw [agentSteps] at hs
    exact absurd hs (by simp)
  | succ f ih =>
    intro step params accParts tot hacc s hs
    rw [agentSteps] at hs
    simp only at hs
    split at hs
    · rename_i hcond
      split at hs
      · exact absurd hs (by simp)
      · rename_i hfail
        simp only [List.mem_cons] at hs
        have hacc3 : partsBalanced ((accParts ++
            (if stepText (pipelineWrap mws
                (prov params.messages params.model_id params.tools) params) ≠ "" then
              [Part.text (stepText (pipelineWrap mws
                (prov params.messages params.model_id params.tools) params))]
            else [])) ++ (dispatchTools reg (stepToolCalls (pipelineWrap mws
              (prov params.messages params.model_id params.tools) params))).parts) :=
          partsBalanced_append (partsBalanced_append hacc (textPartOpt_balanced _))
            (dispatchTools_balanced reg _ hfail)
        rcases hs with rfl | hs
        · exact hacc3
        · exact ih (step + 1) _ _ _ hacc3 s hs
    · exact absurd hs (by simp)

/-- C9: at every point where the agent loop rebuilds the message list for the
next step, the accumulated parts are balanced — every `tool_call` part is
followed by a `tool_result` part with the same `tool_call_id`, because each
dispatched call's result part is appended right after its call part before the
messages are rebuilt. -/
theorem c9_rebuild_parts_balanced {W : Type} (mws : List (Middleware W)) (w : W)
    (prov : ProviderFn) (reg : ToolRegistry) (model : String) (hist : List StoredMsg)
    (userText sys mid : String) (maxSteps : Nat) :
    ∀ s ∈ (stream_message mws w prov reg model hist userText sys maxSteps
      mid).rebuilds, partsBalanced s := by
  intro s hs
  simp only [stream_message] at hs
  split at hs <;>
    exact agentSteps_rebuilds_balanced mws prov reg _ sys maxSteps maxSteps 0 _ []
      (0, 0) partsBalanced_nil s hs

def weatherTool : ToolDefinition :=
  { name := "get_weather", description := "weather", parameters_schema := .obj []
    execute_fn := fun _ => .ok (.obj [("temperature", .num 72)]) }

def weatherReg : ToolRegistry := ToolRegistry.register ⟨[]⟩ weatherTool

/-- Tool call on the first request, plain text once a tool message appears. -/
def weatherProv : ProviderFn := fun msgs _ _ =>
  if msgs.any (fun m => m.role == "tool") then [.text_delta "Sunny, 72F"]
  else [.tool_call "c1" "get_weather" (.obj [("city", .str "SF")])]

theorem c9_witness :
    [Part.tool_call "c1" "get_weather" (.obj [("city", .str "SF")]),
     Part.tool_result "c1" "get_weather" (.obj [("temperature", .num 72)])]
      ∈ (stream_message ([] : List (Middleware Unit)) () weatherProv weatherReg
          "m" [] "hi" "" 10 "mid").rebuilds
    ∧ partsBalanced
        [Part.tool_call "c1" "get_weather" (.obj [("city", .str "SF")]),
         Part.tool_result "c1" "get_weather" (.obj [("temperature", .num 72)])] :=
  have hmem :
      [Part.tool_call "c1" "get_weather" (.obj [("city", .str "SF")]),
       Part.tool_result "c1" "get_weather" (.obj [("temperature", .num 72)])]
        ∈ (stream_message ([] : List (Middleware Unit)) () weatherProv weatherReg
            "m" [] "hi" "" 10 "mid").rebuilds := List.mem_singleton.mpr rfl
  ⟨hmem, c9_rebuild_parts_balanced [] () weatherProv weatherReg "m" [] "hi" "" "mid" 10 _
    hmem⟩

/-! ## C5 — the two adapters buffer fragments and emit one `tool_call` per
completed call -/

/-- Did this vendor chunk carry the truthy `finish_reason = "tool_calls"`
completion signal (first choice, as the adapter reads it)? -/
def oaiFinishToolCalls (ch : OAIChunk) : Bool :=
  match ch.choices with
  | [] => false
  | choice :: _ =>
    match choice.finish_reason with
    | some fr => fr == "tool_calls"
    | none => false

/-- The buffer after folding this chunk's tool-call deltas in. -/
def oaiBufferAfter (st : List (Nat × OAIAcc)) (ch : OAIChunk) : List (Nat × OAIAcc) :=
  match ch.choices with
  | [] => st
  | choice :: _ =>
    match choice.delta.tool_calls with
    | some tcs => if tcs.isEmpty then st else tcs.foldl oaiApplyToolDelta st
    | none => st

theorem toolCallChunks_all (cs : List Chunk)
    (h : ∀ c ∈ cs, (match c with
      | Chunk.tool_call _ _ _ => true
      | _ => false) = true) :
    toolCallChunks cs = cs :=
  List.filter_eq_self.mpr h

theorem toolCallChunks_append (a b : List Chunk) :
    toolCallChunks (a ++ b) = toolCallChunks a ++ toolCallChunks b := by
  unfold toolCallChunks
  exact List.filter_append a b

theorem toolCallChunks_emit (m : List (Nat × OAIAcc)) :
    toolCallChunks (oaiEmitToolCalls m) = oaiEmitToolCalls m := by
  refine toolCallChunks_all _ ?_
  intro c hc
  simp only [oaiEmitToolCalls, List.mem_map] at hc
  obtain ⟨e, _, rfl⟩ := hc
  rfl

theorem toolCallChunks_textEvents (o : Option String) :
    toolCallChunks (if optStrTruthy o then [Chunk.text_delta (o.getD "")] else []) = [] := by
  split <;> rfl

/-- C5: each adapter buffers argument fragments per in-flight call and emits
exactly one `tool_call` chunk per call, only once the vendor signals that the
call is complete, with the accumulated argument string parsed as JSON.  For
the OpenAI adapter (index-keyed buffering): a chunk without a truthy
`finish_reason = "tool_calls"` emits no `tool_call`, and the completion chunk
emits exactly the buffered in-flight calls — one chunk each, arguments
`json.loads`ed (`{}` on failure) — and clears the buffer.  For the Anthropic
adapter (block-keyed buffering): only `content_block_stop` can emit, and the
stop of an open tool block emits exactly one `tool_call` carrying the parsed
accumulated input, resetting the block state. -/
theorem c5_adapter_tool_call_reconstruction :
    (∀ (st : List (Nat × OAIAcc)) (ch : OAIChunk), oaiFinishToolCalls ch = false →
      toolCallChunks (openaiStep st ch).2 = [])
    ∧ (∀ (st : List (Nat × OAIAcc)) (ch : OAIChunk), oaiFinishToolCalls ch = true →
      toolCallChunks (openaiStep st ch).2 = oaiEmitToolCalls (oaiBufferAfter st ch)
      ∧ (openaiStep st ch).1 = [])
    ∧ (∀ (st : AnthState) (ev : AnthEvent), ev ≠ .content_block_stop →
      toolCallChunks (anthropicStep st ev).2 = [])
    ∧ (∀ st : AnthState, anthropicStep st .content_block_stop =
        if optStrTruthy st.current_tool_id then
          ({}, [.tool_call (st.current_tool_id.getD "") (st.current_tool_name.getD "")
            (if st.current_tool_input ≠ "" then parseToolArgs st.current_tool_input
             else .obj [])])
        else (st, [])) := by
  refine ⟨?_, ?_, ?_, ?_⟩
  · intro st ch h
    unfold openaiStep
    unfold oaiFinishToolCalls at h
    rcases hch : ch.choices with _ | ⟨choice, more⟩
    · rcases ch.usage with _ | u <;> simp [toolCallChunks]
    · try rw [hch] at h
      try simp only [] at h
      simp only []
      rcases hfr : choice.finish_reason with _ | fr
      · simp [toolCallChunks_textEvents]
      · try rw [hfr] at h
        try simp only [] at h
        simp only [beq_eq_false_iff_ne] at h
        by_cases hempty : fr = ""
        · simp [hempty, toolCallChunks_textEvents]
        · simp [hempty, h, toolCallChunks_textEvents]
  · intro st ch h
    unfold openaiStep oaiBufferAfter
    unfold oaiFinishToolCalls at h
    rcases hch : ch.choices with _ | ⟨choice, more⟩
    · try rw [hch] at h
      simp at h
    · try rw [hch] at h
      try simp only [] at h
      simp only []
      rcases hfr : choice.finish_reason with _ | fr
      · try rw [hfr] at h
        simp at h
      · try rw [hfr] at h
        try simp only [] at h
        have hfr2 : fr = "tool_calls" := by simpa [beq_iff_eq] using h
        subst hfr2
        simp [toolCallChunks_append, toolCallChunks_textEvents, toolCallChunks_emit]
  · intro st ev h
    cases ev with
    | content_block_start b => cases b <;> rfl
    | content_block_delta d => cases d <;> rfl
    | content_block_stop => exact absurd rfl h
    | message_stop => rfl
    | other => rfl
  · intro st
    rfl

/-- The first argument fragment of call index 0. -/
def oaiDeltaTC : OAIToolCallDelta :=
  { index := 0, id := some "call1"
    function := some { name := some "get_weather", arguments := some "\x7b\"city\"" } }

/-- A vendor chunk carrying that fragment. -/
def oaiDeltaChunk : OAIChunk :=
  { choices := [{ delta := { tool_calls := some [oaiDeltaTC] } }] }

/-- The closing fragment of the same call. -/
def oaiFinishTC : OAIToolCallDelta :=
  { index := 0, function := some { arguments := some ": \"SF\"\x7d" } }

def oaiFinishChoice : OAIChoice :=
  { delta := { tool_calls := some [oaiFinishTC] }, finish_reason := some "tool_calls" }

/-- The completion chunk: the final fragment plus `finish_reason = "tool_calls"`. -/
def oaiFinishChunk : OAIChunk :=
  { choices := [oaiFinishChoice] }

def oaiBufAfterDelta : List (Nat × OAIAcc) := (openaiStep [] oaiDeltaChunk).1

def anthToolState : AnthState :=
  { current_tool_id := some "t1", current_tool_name := some "f",
    current_tool_input := "\x7b\"n\": 3\x7d" }

theorem c5_witness :
    oaiFinishToolCalls oaiDeltaChunk = false
    ∧ toolCallChunks (openaiStep [] oaiDeltaChunk).2 = []
    ∧ oaiFinishToolCalls oaiFinishChunk = true
    ∧ toolCallChunks (openaiStep oaiBufAfterDelta oaiFinishChunk).2
        = oaiEmitToolCalls (oaiBufferAfter oaiBufAfterDelta oaiFinishChunk)
    ∧ (openaiStep oaiBufAfterDelta oaiFinishChunk).1 = []
    ∧ toolCallChunks (openaiStep oaiBufAfterDelta oaiFinishChunk).2
        = [Chunk.tool_call "call1" "get_weather" (.obj [("city", .str "SF")])]
    ∧ toolCallChunks (anthropicStep anthToolState .message_stop).2 = []
    ∧ anthropicStep anthToolState .content_block_stop
        = ({}, [.tool_call "t1" "f" (.obj [("n", .num 3)])]) :=
  ⟨rfl,
   c5_adapter_tool_call_reconstruction.1 [] oaiDeltaChunk rfl,
   rfl,
   (c5_adapter_tool_call_reconstruction.2.1 oaiBufAfterDelta oaiFinishChunk rfl).1,
   (c5_adapter_tool_call_reconstruction.2.1 oaiBufAfterDelta oaiFinishChunk rfl).2,
   rfl,
   c5_adapter_tool_call_reconstruction.2.2.1 anthToolState .message_stop (by decide),
   rfl⟩

/-! ## C6 — the cache never serves the second identical call -/

/-- A provider answering plain text with usage. -/
def c6Provider : ProviderFn := fun _ _ _ => [.text_delta "hello", .usage 1 2]

/-- First one-shot call, empty cache store. -/
def c6run1 : TurnResult CacheStore :=
  stream_message [CacheMW] ([] : CacheStore) c6Provider ⟨[]⟩ "gpt-4o" [] "hi" "" 10 "m1"

/-- Second identical call, over whatever store the first call left. -/
def c6run2 : TurnResult CacheStore :=
  stream_message [CacheMW] c6run1.world c6Provider ⟨[]⟩ "gpt-4o" [] "hi" "" 10 "m2"

/-- The request parameters both calls build before `transform_params`. -/
def c6params : Params :=
  { messages := build_model_messages
      [{ role := "user", parts := [Part.text "hi"], attachments := [] }] "" []
    model_id := "gpt-4o"
    tools := none }

/-- A params value that includes tools. -/
def c6paramsTools : Params :=
  { messages := [], model_id := "gpt-4o", tools := some [Json.null] }

/-- C6 (code evidence): two successive identical one-shot calls with no tools
result in TWO outbound provider calls, not one — the orchestrator never
invokes `after_generate`, so the store stays empty after the first call, and
it never reads `_cache_hit`, so the second call's transform stashes a miss
(`_cache_key`) again and generation proceeds to the provider.  A call that
includes tools bypasses the cache entirely. -/
theorem c6_cache_is_never_consulted :
    generate_message [CacheMW] ([] : CacheStore) c6Provider ⟨[]⟩ "gpt-4o" [] "hi" "" 10 "m1"
        = .ok c6run1
    ∧ c6run1.providerCalls = 1
    ∧ c6run1.world = ([] : CacheStore)
    ∧ c6run2.providerCalls = 1
    ∧ (pipelineTransform [CacheMW] c6run1.world c6params).2.cacheHit = none
    ∧ (pipelineTransform [CacheMW] c6run1.world c6params).2.cacheKey
        = some (cacheMakeKey c6params)
    ∧ CacheMW.transform_params ([("k", "v", 3600)] : CacheStore) c6paramsTools
        = .ok ([("k", "v", 3600)], c6paramsTools) :=
  ⟨rfl, rfl, rfl, rfl, rfl, rfl, rfl⟩

/-! ## C7 — the converter round trip preserves tool-call ids and payloads -/

/-- Is this value a JSON object? -/
def Json.isObj : Json → Bool
  | .obj _ => true
  | _ => false

/-- Do the `args` of a tool-call part form a JSON object? -/
def partArgsObj : Part → Bool
  | .tool_call _ _ a => a.isObj
  | _ => true

/-- The assistant wire tool calls found in a converted message list. -/
def wireToolCallsOf (msgs : List ModelMessage) : List WireToolCall :=
  msgs.flatMap (fun m => m.tool_calls.getD [])

theorem parsedArgs_wireArgs (a : Json) (h : a.isObj = true) :
    parsedArgs (wireArgs a) = a := by
  cases a <;> simp [Json.isObj] at h
  simp [wireArgs, parsedArgs, loads_dumps]

theorem wireToolCallsOf_toolResultMessages (ps : List Part) :
    wireToolCallsOf (toolResultMessages ps) = [] := by
  unfold wireToolCallsOf toolResultMessages
  induction ps with
  | nil => rfl
  | cons p rest ih => cases p <;> simpa [List.filterMap_cons] using ih

theorem wire_of_single_assistant (ps : List Part) :
    wireToolCallsOf (to_model_messages
        [{ role := "assistant", parts := ps, attachments := [] }])
      = (toolCallParts ps).map (fun tc =>
          ({ id := tc.1, name := tc.2.1, arguments := wireArgs tc.2.2 } : WireToolCall)) := by
  have hres := wireToolCallsOf_toolResultMessages ps
  unfold wireToolCallsOf at hres ⊢
  unfold to_model_messages build_assistant_message
  by_cases h2 : toolCallParts ps = [] <;>
    by_cases h1 : extract_text ps = "" <;>
      simp [h1, h2, hres, List.flatMap_append]

theorem toolCallParts_append (a b : List Part) :
    toolCallParts (a ++ b) = toolCallParts a ++ toolCallParts b := by
  simp [toolCallParts]

theorem toolCallParts_mem {ps : List Part} {i n : String} {a : Json}
    (h : (i, n, a) ∈ toolCallParts ps) : Part.tool_call i n a ∈ ps := by
  unfold toolCallParts at h
  rw [List.mem_filterMap] at h
  obtain ⟨p, hp, hf⟩ := h
  cases p <;> simp at hf
  obtain ⟨rfl, rfl, rfl⟩ := hf
  exact hp

theorem toolCallParts_map_wire (l : List (String × String × Json))
    (h : ∀ t ∈ l, Json.isObj t.2.2 = true) :
    toolCallParts ((l.map (fun tc =>
        ({ id := tc.1, name := tc.2.1, arguments := wireArgs tc.2.2 } : WireToolCall))).map
      (fun tc => Part.tool_call tc.id tc.name (parsedArgs tc.arguments))) = l := by
  induction l with
  | nil => rfl
  | cons t rest ih =>
    obtain ⟨i, n, a⟩ := t
    have ha : Json.isObj a = true := h (i, n, a) (List.mem_cons_self _ _)
    have hrest := ih (fun t ht => h t (List.mem_cons_of_mem _ ht))
    simp only [toolCallParts] at hrest ⊢
    simp only [List.map_cons, List.filterMap_cons]
    rw [parsedArgs_wireArgs a ha, hrest]

/-- C7: storing an assistant turn, converting the history back to model
messages and re-parsing the wire tool calls reproduces the original
tool-call parts — ids, names and argument payloads — whenever every
tool-call part carries a JSON-object argument (as the SDK always writes). -/
theorem c7_tool_call_round_trip (ps : List Part)
    (h : ∀ p ∈ ps, partArgsObj p = true) :
    toolCallParts (from_model_response "assistant" (extract_text ps)
        (wireToolCallsOf (to_model_messages
          [{ role := "assistant", parts := ps, attachments := [] }]))).parts
      = toolCallParts ps := by
  have hobj : ∀ t ∈ toolCallParts ps, Json.isObj t.2.2 = true := by
    intro t ht
    obtain ⟨i, n, a⟩ := t
    have hp := h _ (toolCallParts_mem ht)
    simpa [partArgsObj] using hp
  rw [wire_of_single_assistant]
  simp only [from_model_response]
  rw [toolCallParts_append]
  have h1 : toolCallParts
      (if extract_text ps ≠ "" then [Part.text (extract_text ps)] else []) = [] := by
    split <;> rfl
  rw [h1, List.nil_append]
  exact toolCallParts_map_wire (toolCallParts ps) hobj

/-- Concrete assistant turn for the round trip. -/
def c7ps : List Part :=
  [Part.text "hello",
   Part.tool_call "c1" "get_weather" (.obj [("city", .str "SF")]),
   Part.tool_result "c1" "get_weather" (.obj [("temperature", .num 72)])]

/-- Witness for C7 on a concrete stored message. -/
theorem c7_witness :
    (∀ p ∈ c7ps, partArgsObj p = true)
    ∧ toolCallParts (from_model_response "assistant" (extract_text c7ps)
        (wireToolCallsOf (to_model_messages
          [{ role := "assistant", parts := c7ps, attachments := [] }]))).parts
      = toolCallParts c7ps :=
  ⟨by decide, c7_tool_call_round_trip c7ps (by decide)⟩
